import Mathlib

/-!
Verification of the SkSL Rehydrator (src/src/sksl/SkSLRehydrator.cpp).

The decoder reconstructs a compiled SkSL module from a compact binary
encoding.  We give a shallow embedding: the byte cursor, the ambient
decode context (current symbol table, current program configuration,
current modifiers pool, the session-local id table) become an explicit
state record, every decoder function becomes a fuel-indexed state-and-
error monadic function, and fatal contract violations (assertion
failures, buffer overrun, unresolved references) become errors of an
`Except`-style result.

External collaborator classes (the IR node factories such as
`Block::Make` or `Literal::MakeFloat`, the `SymbolTable` container, the
primitive reader declared in the missing header `SkSLRehydrator.h`) are
modelled at their boundary as plain constructors and small state
operations, following the specification where the repository source does
not contain them; each such definition carries a comment saying so.
-/

namespace SkSLRehydrator

/-- Sign extension of a `w`-bit wire value `v` (`readS8`/`readS16`/`readS32`
narrow-to-wide decoding).  Modelled from the spec: the primitive reader of
the missing header sign-extends from the on-wire width. -/
def toSigned (w v : Nat) : Int :=
  if v < 2 ^ (w - 1) then (v : Int) else (v : Int) - 2 ^ w

/-- Layout data (include/private/SkSLLayout.h is outside src/; modelled from
the decoder's uses: a default-constructed layout, a builtin-only layout, and
a fully explicit layout). -/
structure Layout where
  flags : Nat
  location : Int
  offset : Int
  binding : Int
  index : Int
  set : Int
  builtin : Int
  inputAttachmentIndex : Int
deriving DecidableEq, Repr

/-- Default-constructed `Layout()`; field defaults modelled from the spec
(an absent layout datum is the sentinel -1, flags empty). -/
def Layout.default : Layout :=
  ⟨0, -1, -1, -1, -1, -1, -1, -1⟩

/-- Modifier data: a layout plus a flag word (SkSLModifiers.h is outside
src/; only these two components are decoded). -/
structure Modifiers where
  layout : Layout
  flags : Int
deriving DecidableEq, Repr

/-- Default-constructed `Modifiers()`. -/
def Modifiers.default : Modifiers :=
  ⟨Layout.default, 0⟩

/-- Decoded symbols: the named typed entities of the data model.  `scalarType`
stands for the primitive types supplied by the shared builtin modules (their
class lives outside src/; the decoder only consults the name and the
unsigned-integer flag of such a type).  The remaining constructors follow
the `Rehydrator::symbol` cases one to one. -/
inductive Symbol where
  | scalarType (name : String) (unsigned : Bool)
  | arrayType (name : String) (component : Symbol) (count : Int)
  | structType (name : String) (fields : List (Modifiers × String × Symbol))
      (interfaceBlock : Bool)
  | functionDecl (modifiers : Modifiers) (name : String) (params : List Symbol)
      (returnType : Symbol) (builtin : Bool)
  | field (owner : Symbol) (index : Nat)
  | var (modifiers : Modifiers) (name : String) (type : Symbol) (builtin : Bool)
      (storage : Nat)

/-- Whether a symbol is of kind `kType` (`Symbol::kind() == Kind::kType`,
asserted by `Rehydrator::type`). -/
def Symbol.isTypeKind : Symbol → Bool
  | .scalarType _ _ => true
  | .arrayType _ _ _ => true
  | .structType _ _ _ => true
  | _ => false

/-- Whether a type is an unsigned integer type (`Type::isUnsigned`, outside
src/; modelled from the spec: only a primitive scalar type can be unsigned). -/
def Symbol.isUnsigned : Symbol → Bool
  | .scalarType _ u => u
  | _ => false

/-- The name of the struct field a `Field` symbol designates (used as the
symbol's name; `Field` is outside src/ and is modelled from the spec: a field
is referenced via its owner variable and field index). -/
def Symbol.fieldName : Symbol → Nat → String
  | .var _ _ (.structType _ fields _) _ _, i =>
      ((fields.get? i).map (fun f => f.2.1)).getD ""
  | _, _ => ""

/-- The symbol's name (`Symbol::name`, outside src/): stored directly for
most kinds, derived from the owner for fields. -/
def Symbol.symName : Symbol → String
  | .scalarType n _ => n
  | .arrayType n _ _ => n
  | .structType n _ _ => n
  | .functionDecl _ n _ _ _ => n
  | .field owner i => Symbol.fieldName owner i
  | .var _ n _ _ _ => n

/-- One scope of the symbol table: the builtin flag, the symbols and strings
whose storage this scope owns (`takeOwnershipOfSymbol` /
`takeOwnershipOfString`), and the ordered name-visible bindings
(`addWithoutOwnership`).  The `SymbolTable` class is outside src/; it is
modelled from the spec's two-tier owned/visible data model. -/
structure ScopeFrame where
  builtin : Bool
  owned : List Symbol
  ownedStrings : List String
  entries : List (String × Symbol)

/-- A parent-linked symbol-table chain, innermost scope first.  The empty
list plays the role of the null `shared_ptr`. -/
abbrev SymbolTable := List ScopeFrame

/-- Name lookup in a single scope (the scope's own map only); with ordered
entries the most recently added binding for a name wins. -/
def frameLookup (f : ScopeFrame) (name : String) : Option Symbol :=
  ((f.entries.filter (fun e => e.1 == name)).getLast?).map (fun e => e.2)

/-- Lookup of a name starting from the outermost ancestor of a chain:
walk to the root scope and consult it there (`while (root->fParent) ...;
(*root)[name]`). -/
def rootLookup (t : SymbolTable) (name : String) : Option Symbol :=
  match t.getLast? with
  | some f => frameLookup f name
  | none => none

/-- Decoded expressions.  External IR factories (`BinaryExpression::Make`,
`ConstructorSplat::Make`, `Literal::MakeFloat`, ...) live outside src/ and
are modelled as plain constructors.  A float literal is represented by the
32-bit wire pattern the decoder `memcpy`s into the `float` value; an null
subexpression (the `Void` sentinel) is `none`. -/
inductive Expr where
  | binary (left : Option Expr) (op : Nat) (right : Option Expr)
  | boolLit (value : Bool)
  | constructorArray (type : Symbol) (args : List (Option Expr))
  | arrayCast (type : Symbol) (arg : Option Expr)
  | compound (type : Symbol) (args : List (Option Expr))
  | compoundCast (type : Symbol) (arg : Option Expr)
  | diagonalMatrix (type : Symbol) (arg : Option Expr)
  | matrixResize (type : Symbol) (arg : Option Expr)
  | scalarCast (type : Symbol) (arg : Option Expr)
  | splat (type : Symbol) (arg : Option Expr)
  | constructorStruct (type : Symbol) (args : List (Option Expr))
  | fieldAccess (base : Option Expr) (index : Nat) (ownerKind : Nat)
  | floatLit (type : Symbol) (bits : Nat)
  | functionCall (type : Symbol) (f : Symbol) (args : List (Option Expr))
  | indexExpr (base : Option Expr) (index : Option Expr)
  | intLit (type : Symbol) (value : Int)
  | postfixOp (op : Nat) (operand : Option Expr)
  | prefixOp (op : Nat) (operand : Option Expr)
  | setting (name : String)
  | swizzle (base : Option Expr) (components : List Nat)
  | ternary (test : Option Expr) (ifTrue : Option Expr) (ifFalse : Option Expr)
  | varRef (v : Symbol) (refKind : Nat)

/-- One switch case: `none` for the default case, otherwise the literal
value, together with the body statement. -/
abbrev SwitchCasePayload := Option Int

/-- Decoded statements.  The scope-bearing statements capture the symbol
table in effect when their factory ran (`Block::Make(..., fSymbolTable)`). -/
inductive Stmt where
  | block (statements : List (Option Stmt)) (blockKind : Nat)
      (symbols : SymbolTable)
  | breakStmt
  | continueStmt
  | discardStmt
  | doStmt (body : Option Stmt) (test : Option Expr)
  | exprStmt (e : Option Expr)
  | forStmt (initializer : Option Stmt) (test : Option Expr)
      (next : Option Expr) (body : Option Stmt) (symbols : SymbolTable)
  | ifStmt (isStatic : Bool) (test : Option Expr) (ifTrue : Option Stmt)
      (ifFalse : Option Stmt)
  | nop
  | ret (e : Option Expr)
  | switchStmt (isStatic : Bool) (subject : Option Expr)
      (cases : List (SwitchCasePayload × Option Stmt)) (symbols : SymbolTable)
  | varDecl (v : Symbol) (baseType : Symbol) (arraySize : Nat)
      (value : Option Expr)

/-- Decoded program elements. -/
inductive Elem where
  | functionDef (decl : Symbol) (body : Option Stmt) (builtin : Bool)
  | functionProto (decl : Symbol)
  | globalVar (decl : Option Stmt)
  | interfaceBlock (v : Symbol) (typeName : String) (instanceName : String)
      (arraySize : Nat)
  | structDef (type : Symbol)

/-- Program configuration: kind byte, required-version byte, and the pinned
maximum allowed language version (`fSettings.fMaxVersionAllowed = k300`). -/
structure Config where
  kind : Nat
  requiredVersion : Nat
  maxVersionAllowed : Nat
deriving DecidableEq, Repr

/-- The decode result.  The allocation arena (`Pool`) is represented by the
numeric token the session attached to thread-local storage; the modifiers
pool by its accumulated contents. -/
structure Program where
  config : Config
  elements : List Elem
  symbols : SymbolTable
  inputsUseFlipRT : Bool
  pool : Option Nat
  modifiersPool : List Modifiers

/-- Fatal decode outcomes.  Every structural contract violation the source
detects (assertion failure, overrun, unresolved reference) is a distinct
error; `outOfFuel` is the artificial bound of the fuelled embedding. -/
inductive Err where
  | outOfFuel
  | overrun
  | stringUnderrun
  | nullTable
  | badVersion
  | badLayoutCmd
  | badModifiersCmd
  | unknownSymbolCmd
  | unknownStatementCmd
  | unknownExpressionCmd
  | unknownElementCmd
  | badSymbolTableCmd
  | badProgramCmd
  | badElementsCmd
  | notType
  | notVariable
  | notFunctionDecl
  | badSharedFunction
  | unresolvedId
  | builtinLookupFailed
  | arityMismatch
  | oobOwnedIndex
  | leftoverBytes
deriving DecidableEq, Repr

/-- The ambient decode context of one session: the byte buffer and cursor,
the string blob (opaque, strings consumed in encode order per the spec),
the session-local id table (`addSymbol`/`symbolRef`), the current symbol
table chain, the ambient configuration and modifiers pool of the compiler
context, the thread-local memory pool, and the compiler's builtin modules
by program kind. -/
structure St where
  buf : List Nat
  ip : Nat
  strs : List String
  ids : List (Nat × Symbol)
  table : SymbolTable
  config : Option Config
  modPool : List Modifiers
  threadPool : Option Nat
  nextPool : Nat
  modules : List (Nat × SymbolTable)

/-- The builtin module symbol table for a program kind
(`Compiler::moduleForProgramKind`, external). -/
def St.moduleFor (s : St) (kind : Nat) : SymbolTable :=
  (s.modules.lookup kind).getD []

/-- The decode monad: state plus fatal abort. -/
def M (α : Type) : Type :=
  St → Except Err (α × St)

instance : Monad M where
  pure a := fun s => .ok (a, s)
  bind m f := fun s =>
    match m s with
    | .ok (a, s1) => f a s1
    | .error e => .error e

/-- Abort the decode session. -/
def throwE {α : Type} (e : Err) : M α :=
  fun _ => .error e

/-- Read the whole state. -/
def getState : M St :=
  fun s => .ok (s, s)

/-- Update the state. -/
def modifyState (f : St → St) : M Unit :=
  fun s => .ok ((), f s)

/-- Read one byte and advance the cursor.  Modelled from the spec: reading
past the end of the buffer is a fatal contract violation. -/
def readU8 : M Nat :=
  fun s =>
    match s.buf.get? s.ip with
    | some b => .ok (b % 256, { s with ip := s.ip + 1 })
    | none => .error .overrun

/-- Read a 16-bit little-endian value.  Modelled from the spec: the
primitive reader of the missing header composes two byte reads. -/
def readU16 : M Nat := do
  let b1 ← readU8
  let b2 ← readU8
  pure (b1 + 256 * b2)

/-- Read a 32-bit little-endian value. -/
def readU32 : M Nat := do
  let b1 ← readU8
  let b2 ← readU8
  let b3 ← readU8
  let b4 ← readU8
  pure (b1 + 256 * b2 + 65536 * b3 + 16777216 * b4)

/-- Read a signed 8-bit value (sign extension). -/
def readS8 : M Int := do
  let v ← readU8
  pure (toSigned 8 v)

/-- Read a signed 16-bit value. -/
def readS16 : M Int := do
  let v ← readU16
  pure (toSigned 16 v)

/-- Read a signed 32-bit value. -/
def readS32 : M Int := do
  let v ← readU32
  pure (toSigned 32 v)

/-- Read the next string of the string blob.  Modelled from the spec:
the blob's internal addressing is opaque, strings are returned in exact
encode order. -/
def readString : M String :=
  fun s =>
    match s.strs with
    | [] => .error .stringUnderrun
    | x :: rest => .ok (x, { s with strs := rest })

/-- Current symbol table chain (`fSymbolTable`). -/
def getTableRaw : M SymbolTable :=
  fun s => .ok (s.table, s)

/-- Overwrite the current symbol table chain. -/
def setTableRaw (t : SymbolTable) : M Unit :=
  modifyState fun s => { s with table := t }

/-- Enter a fresh child scope:
`fSymbolTable = std::make_shared<SymbolTable>(std::move(fSymbolTable), builtin)`. -/
def pushFrame (b : Bool) : M Unit :=
  modifyState fun s => { s with table := ⟨b, [], [], []⟩ :: s.table }

/-- Whether the current scope is a builtin scope (`fSymbolTable->isBuiltin()`;
dereferencing a null table is fatal). -/
def tableIsBuiltin : M Bool := do
  let t ← getTableRaw
  match t with
  | [] => throwE .nullTable
  | f :: _ => pure f.builtin

/-- Give the current scope ownership of a symbol's storage
(`SymbolTable::takeOwnershipOfSymbol`, external: appends to the owned
arena and does not touch the name-visible bindings). -/
def takeOwnershipOfSymbol (sym : Symbol) : M Unit := do
  let t ← getTableRaw
  match t with
  | [] => throwE .nullTable
  | f :: rest => setTableRaw ({ f with owned := f.owned ++ [sym] } :: rest)

/-- Give the current scope ownership of a string
(`SymbolTable::takeOwnershipOfString`, external). -/
def takeOwnershipOfString (str : String) : M Unit := do
  let t ← getTableRaw
  match t with
  | [] => throwE .nullTable
  | f :: rest =>
      setTableRaw ({ f with ownedStrings := f.ownedStrings ++ [str] } :: rest)

/-- Bind a symbol into the current scope's name table without taking
ownership (`SymbolTable::addWithoutOwnership`, external: appends an ordered
(name, symbol) binding and leaves the owned arena unchanged). -/
def addWithoutOwnership (sym : Symbol) : M Unit := do
  let t ← getTableRaw
  match t with
  | [] => throwE .nullTable
  | f :: rest =>
      setTableRaw ({ f with entries := f.entries ++ [(sym.symName, sym)] } :: rest)

/-- Register a freshly decoded symbol under its session-local id
(`Rehydrator::addSymbol`, declared in the missing header; modelled from the
spec: the id table maps ids to already-materialized symbols). -/
def addSymbol (id : Nat) (sym : Symbol) : M Unit :=
  modifyState fun s => { s with ids := (id, sym) :: s.ids }

/-- Add modifiers to the ambient modifiers pool and hand them back
(`this->modifiersPool().add(m)`, external pool class). -/
def modifiersPoolAdd (m : Modifiers) : M Modifiers := do
  modifyState fun s => { s with modPool := s.modPool ++ [m] }
  pure m

/-- Ambient configuration pointer (`context.fConfig`). -/
def getConfig : M (Option Config) :=
  fun s => .ok (s.config, s)

/-- Install an ambient configuration. -/
def setConfig (c : Option Config) : M Unit :=
  modifyState fun s => { s with config := c }

/-- Contents of the ambient modifiers pool. -/
def getModPool : M (List Modifiers) :=
  fun s => .ok (s.modPool, s)

/-- Install an ambient modifiers pool. -/
def setModPool (p : List Modifiers) : M Unit :=
  modifyState fun s => { s with modPool := p }

/-- Start a DSL session (`dsl::Start`, external): attach a fresh memory pool
to thread-local storage. -/
def dslStart : M Unit :=
  modifyState fun s =>
    { s with threadPool := some s.nextPool, nextPool := s.nextPool + 1 }

/-- Detach the session's memory pool from thread-local storage
(`std::move(ThreadContext::MemoryPool())` followed by
`pool->detachFromThread()`): the pool moves out, nothing is left behind. -/
def detachPool : M (Option Nat) :=
  fun s => .ok (s.threadPool, { s with threadPool := none })

/-- End the DSL session (`dsl::End`, external). -/
def dslEnd : M Unit :=
  modifyState fun s => { s with threadPool := none }

/-- Command tags.  Modelled from the spec: the tag enumeration lives in the
missing header `SkSLRehydrator.h`; the decoder depends only on the tags
being pairwise distinct byte values, so we assign consecutive values. -/
def kArrayType_Command : Nat := 0
/-- Command tag (see `kArrayType_Command`). -/
def kBinary_Command : Nat := 1
/-- Command tag (see `kArrayType_Command`). -/
def kBlock_Command : Nat := 2
/-- Command tag (see `kArrayType_Command`). -/
def kBoolLiteral_Command : Nat := 3
/-- Command tag (see `kArrayType_Command`). -/
def kBreak_Command : Nat := 4
/-- Command tag (see `kArrayType_Command`). -/
def kBuiltinLayout_Command : Nat := 5
/-- Command tag (see `kArrayType_Command`). -/
def kConstructorArray_Command : Nat := 6
/-- Command tag (see `kArrayType_Command`). -/
def kConstructorArrayCast_Command : Nat := 7
/-- Command tag (see `kArrayType_Command`). -/
def kConstructorCompound_Command : Nat := 8
/-- Command tag (see `kArrayType_Command`). -/
def kConstructorCompoundCast_Command : Nat := 9
/-- Command tag (see `kArrayType_Command`). -/
def kConstructorDiagonalMatrix_Command : Nat := 10
/-- Command tag (see `kArrayType_Command`). -/
def kConstructorMatrixResize_Command : Nat := 11
/-- Command tag (see `kArrayType_Command`). -/
def kConstructorScalarCast_Command : Nat := 12
/-- Command tag (see `kArrayType_Command`). -/
def kConstructorSplat_Command : Nat := 13
/-- Command tag (see `kArrayType_Command`). -/
def kConstructorStruct_Command : Nat := 14
/-- Command tag (see `kArrayType_Command`). -/
def kContinue_Command : Nat := 15
/-- Command tag (see `kArrayType_Command`). -/
def kDefaultLayout_Command : Nat := 16
/-- Command tag (see `kArrayType_Command`). -/
def kDefaultModifiers_Command : Nat := 17
/-- Command tag (see `kArrayType_Command`). -/
def kDiscard_Command : Nat := 18
/-- Command tag (see `kArrayType_Command`). -/
def kDo_Command : Nat := 19
/-- Command tag (see `kArrayType_Command`). -/
def kElements_Command : Nat := 20
/-- Command tag (see `kArrayType_Command`). -/
def kElementsComplete_Command : Nat := 21
/-- Command tag (see `kArrayType_Command`). -/
def kExpressionStatement_Command : Nat := 22
/-- Command tag (see `kArrayType_Command`). -/
def kField_Command : Nat := 23
/-- Command tag (see `kArrayType_Command`). -/
def kFieldAccess_Command : Nat := 24
/-- Command tag (see `kArrayType_Command`). -/
def kFloatLiteral_Command : Nat := 25
/-- Command tag (see `kArrayType_Command`). -/
def kFor_Command : Nat := 26
/-- Command tag (see `kArrayType_Command`). -/
def kFunctionCall_Command : Nat := 27
/-- Command tag (see `kArrayType_Command`). -/
def kFunctionDeclaration_Command : Nat := 28
/-- Command tag (see `kArrayType_Command`). -/
def kFunctionDefinition_Command : Nat := 29
/-- Command tag (see `kArrayType_Command`). -/
def kFunctionPrototype_Command : Nat := 30
/-- Command tag (see `kArrayType_Command`). -/
def kGlobalVar_Command : Nat := 31
/-- Command tag (see `kArrayType_Command`). -/
def kIf_Command : Nat := 32
/-- Command tag (see `kArrayType_Command`). -/
def kIndex_Command : Nat := 33
/-- Command tag (see `kArrayType_Command`). -/
def kInterfaceBlock_Command : Nat := 34
/-- Command tag (see `kArrayType_Command`). -/
def kIntLiteral_Command : Nat := 35
/-- Command tag (see `kArrayType_Command`). -/
def kLayout_Command : Nat := 36
/-- Command tag (see `kArrayType_Command`). -/
def kModifiers8Bit_Command : Nat := 37
/-- Command tag (see `kArrayType_Command`). -/
def kModifiers_Command : Nat := 38
/-- Command tag (see `kArrayType_Command`). -/
def kNop_Command : Nat := 39
/-- Command tag (see `kArrayType_Command`). -/
def kPostfix_Command : Nat := 40
/-- Command tag (see `kArrayType_Command`). -/
def kPrefix_Command : Nat := 41
/-- Command tag (see `kArrayType_Command`). -/
def kProgram_Command : Nat := 42
/-- Command tag (see `kArrayType_Command`). -/
def kReturn_Command : Nat := 43
/-- Command tag (see `kArrayType_Command`). -/
def kSetting_Command : Nat := 44
/-- Command tag (see `kArrayType_Command`). -/
def kSharedFunction_Command : Nat := 45
/-- Command tag (see `kArrayType_Command`). -/
def kStructDefinition_Command : Nat := 46
/-- Command tag (see `kArrayType_Command`). -/
def kStructType_Command : Nat := 47
/-- Command tag (see `kArrayType_Command`). -/
def kSwitch_Command : Nat := 48
/-- Command tag (see `kArrayType_Command`). -/
def kSwizzle_Command : Nat := 49
/-- Command tag (see `kArrayType_Command`). -/
def kSymbolRef_Command : Nat := 50
/-- Command tag (see `kArrayType_Command`). -/
def kSymbolTable_Command : Nat := 51
/-- Command tag (see `kArrayType_Command`). -/
def kTernary_Command : Nat := 52
/-- Command tag (see `kArrayType_Command`). -/
def kVariable_Command : Nat := 53
/-- Command tag (see `kArrayType_Command`). -/
def kVarDeclaration_Command : Nat := 54
/-- Command tag (see `kArrayType_Command`). -/
def kVariableReference_Command : Nat := 55
/-- Command tag (see `kArrayType_Command`). -/
def kVoid_Command : Nat := 56

/-- The reserved 16-bit sentinel marking a reference to a shared builtin
symbol resolved by name (`kBuiltin_Symbol`; modelled from the spec's
builtin sentinel, the all-ones 16-bit value). -/
def kBuiltin_Symbol : Nat := 65535

/-- The dehydrated data format version the decoder accepts (`kVersion` of
the missing header; the exact numeric value is irrelevant, only equality
with the wire header matters). -/
def kVersion : Nat := 9

/-- The pinned maximum allowed language version
(`fSettings.fMaxVersionAllowed = SkSL::Version::k300`, external enum). -/
def versionK300 : Nat := 300

/-- Array-name synthesis (`Type::getArrayName`, external): the component
name followed by the bracketed count, with an unsized sentinel count of -1
shown as empty brackets. -/
def getArrayName (component : String) (count : Int) : String :=
  if count = -1 then component ++ "[]"
  else component ++ "[" ++ toString count ++ "]"

/-- Decode a `Layout` (`Rehydrator::layout`): dispatch on a tag byte among
builtin-only, default, and full layouts; an unknown tag is an assertion
failure. -/
def layoutFn : M Layout := do
  let cmd ← readU8
  if cmd = kBuiltinLayout_Command then do
    let b ← readS16
    pure { Layout.default with builtin := b }
  else if cmd = kDefaultLayout_Command then
    pure Layout.default
  else if cmd = kLayout_Command then do
    let flags ← readU32
    let location ← readS8
    let offset ← readS16
    let binding ← readS16
    let index ← readS8
    let setV ← readS8
    let builtin ← readS16
    let inputAttachmentIndex ← readS8
    pure ⟨flags, location, offset, binding, index, setV, builtin,
          inputAttachmentIndex⟩
  else throwE .badLayoutCmd

/-- Decode `Modifiers` (`Rehydrator::modifiers`): default, 8-bit-flag, or
full-flag form. -/
def modifiersFn : M Modifiers := do
  let cmd ← readU8
  if cmd = kDefaultModifiers_Command then
    pure Modifiers.default
  else if cmd = kModifiers8Bit_Command then do
    let l ← layoutFn
    let flags ← readU8
    pure ⟨l, (flags : Int)⟩
  else if cmd = kModifiers_Command then do
    let l ← layoutFn
    let flags ← readS32
    pure ⟨l, flags⟩
  else throwE .badModifiersCmd

/-- Resolve a possibly-builtin symbol reference.  Modelled from the spec:
read a reference token; the builtin sentinel is followed by a name resolved
in the outermost ancestor of the current scope chain (failure is fatal),
any other token is a session-local id that must already be registered. -/
def possiblyBuiltinSymbolRef : M Symbol := do
  let tok ← readU16
  if tok = kBuiltin_Symbol then do
    let name ← readString
    let t ← getTableRaw
    match rootLookup t name with
    | some s => pure s
    | none => throwE .builtinLookupFailed
  else do
    let st ← getState
    match st.ids.lookup tok with
    | some s => pure s
    | none => throwE .unresolvedId

/-- Resolve a symbol by session-local id (`Rehydrator::symbolRef<T>` of the
missing header; modelled from the spec: read an id, resolve it against the
table of already-materialized symbols). -/
def symbolRefAny : M Symbol := do
  let id ← readU16
  let st ← getState
  match st.ids.lookup id with
  | some s => pure s
  | none => throwE .unresolvedId

/-- Cast assertion `symbol->as<Variable>()`. -/
def asVariable (s : Symbol) : M Symbol :=
  match s with
  | .var _ _ _ _ _ => pure s
  | _ => throwE .notVariable

/-- Cast assertion `symbol->as<FunctionDeclaration>()`. -/
def asFunctionDecl (s : Symbol) : M Symbol :=
  match s with
  | .functionDecl _ _ _ _ _ => pure s
  | _ => throwE .notFunctionDecl

/-- Overload re-resolution after a function call decode
(`FunctionCall::FindBestFunctionForCall`, external: re-runs overload
resolution against the decoded arguments; the serialized reference already
names a member of the right overload set, modelled as that declaration). -/
def findBestFunctionForCall (f : Symbol) (_args : List (Option Expr)) : Symbol :=
  f

/-- Read `n` raw bytes (the swizzle component list). -/
def readBytesLoop : Nat → M (List Nat)
  | 0 => pure []
  | n + 1 => do
    let b ← readU8
    let rest ← readBytesLoop n
    pure (b :: rest)

/-- The scope discipline of `AutoRehydratorSymbolTable`: save the ambient
current scope, decode a symbol table (which installs itself as current when
present), run the body, and restore the saved scope on exit. -/
def withScope {α : Type} (symTab : M (Option SymbolTable)) (body : M α) :
    M α := do
  let old ← getTableRaw
  let syms ← symTab
  match syms with
  | some s => setTableRaw s
  | none => pure ()
  let a ← body
  setTableRaw old
  pure a


/-- The bundle of mutually recursive decoder functions at one fuel level.
Fields follow `Rehydrator::symbol`, `Rehydrator::type`,
`Rehydrator::symbolTable`, `Rehydrator::statement`, `Rehydrator::expression`,
`Rehydrator::expressionArray`, `Rehydrator::element` and their internal
counted loops. -/
structure Decoders where
  symbol : M Symbol
  type : M Symbol
  paramLoop : Nat → M (List Symbol)
  fieldLoop : Nat → M (List (Modifiers × String × Symbol))
  symbolTable : M (Option SymbolTable)
  ownedLoop : Nat → M (List Symbol)
  visLoop : List Symbol → Nat → M Unit
  statement : M (Option Stmt)
  stmtLoop : Nat → M (List (Option Stmt))
  caseLoop : Nat → M (List (SwitchCasePayload × Option Stmt))
  expression : M (Option Expr)
  exprLoop : Nat → M (List (Option Expr))
  exprArray : M (List (Option Expr))
  element : M (Option Elem)
  elemLoop : M (List Elem)

/-- The exhausted-fuel decoder bundle. -/
def decodersZero : Decoders where
  symbol := throwE .outOfFuel
  type := throwE .outOfFuel
  paramLoop := fun _ => throwE .outOfFuel
  fieldLoop := fun _ => throwE .outOfFuel
  symbolTable := throwE .outOfFuel
  ownedLoop := fun _ => throwE .outOfFuel
  visLoop := fun _ _ => throwE .outOfFuel
  statement := throwE .outOfFuel
  stmtLoop := fun _ => throwE .outOfFuel
  caseLoop := fun _ => throwE .outOfFuel
  expression := throwE .outOfFuel
  exprLoop := fun _ => throwE .outOfFuel
  exprArray := throwE .outOfFuel
  element := throwE .outOfFuel
  elemLoop := throwE .outOfFuel

/-- One step of the decoder fixpoint: every nested decode call goes through
the previous fuel level `d`.  The bodies are line-by-line transcriptions of
src/src/sksl/SkSLRehydrator.cpp. -/
def mkStep (d : Decoders) : Decoders where
  symbol := do
    let kind ← readU8
    if kind = kArrayType_Command then do
      let id ← readU16
      let componentType ← d.type
      let count ← readS8
      let arrayName := getArrayName componentType.symName count
      takeOwnershipOfString arrayName
      let result := Symbol.arrayType arrayName componentType count
      takeOwnershipOfSymbol result
      addSymbol id result
      pure result
    else if kind = kFunctionDeclaration_Command then do
      let id ← readU16
      let m ← modifiersFn
      let name ← readString
      let parameterCount ← readU8
      let parameters ← d.paramLoop parameterCount
      let returnType ← d.type
      let mp ← modifiersPoolAdd m
      let bi ← tableIsBuiltin
      let sym := Symbol.functionDecl mp name parameters returnType bi
      takeOwnershipOfSymbol sym
      addSymbol id sym
      pure sym
    else if kind = kField_Command then do
      let owner ← symbolRefAny
      let owner ← asVariable owner
      let index ← readU8
      let result := Symbol.field owner index
      takeOwnershipOfSymbol result
      pure result
    else if kind = kStructType_Command then do
      let id ← readU16
      let name ← readString
      let fieldCount ← readU8
      let fields ← d.fieldLoop fieldCount
      let interfaceBlockB ← readU8
      takeOwnershipOfString name
      let result := Symbol.structType name fields (interfaceBlockB ≠ 0)
      takeOwnershipOfSymbol result
      addSymbol id result
      pure result
    else if kind = kSymbolRef_Command then
      possiblyBuiltinSymbolRef
    else if kind = kVariable_Command then do
      let id ← readU16
      let m0 ← modifiersFn
      let m ← modifiersPoolAdd m0
      let name ← readString
      let ty ← d.type
      let storage ← readU8
      let bi ← tableIsBuiltin
      let result := Symbol.var m name ty bi storage
      takeOwnershipOfSymbol result
      addSymbol id result
      pure result
    else throwE .unknownSymbolCmd
  type := do
    let result ← d.symbol
    if result.isTypeKind then pure result else throwE .notType
  paramLoop := fun n =>
    match n with
    | 0 => pure []
    | k + 1 => do
      let s ← d.symbol
      let v ← asVariable s
      let rest ← d.paramLoop k
      pure (v :: rest)
  fieldLoop := fun n =>
    match n with
    | 0 => pure []
    | k + 1 => do
      let m ← modifiersFn
      let fieldName ← readString
      let ty ← d.type
      let rest ← d.fieldLoop k
      pure ((m, fieldName, ty) :: rest)
  symbolTable := do
    let command ← readU8
    if command = kVoid_Command then
      pure none
    else if command = kSymbolTable_Command then do
      let builtinB ← readU8
      let ownedCount ← readU16
      pushFrame (builtinB ≠ 0)
      let ownedSymbols ← d.ownedLoop ownedCount
      let symbolCount ← readU16
      d.visLoop ownedSymbols symbolCount
      let t ← getTableRaw
      pure (some t)
    else throwE .badSymbolTableCmd
  ownedLoop := fun n =>
    match n with
    | 0 => pure []
    | k + 1 => do
      let s ← d.symbol
      let rest ← d.ownedLoop k
      pure (s :: rest)
  visLoop := fun ownedSymbols n =>
    match n with
    | 0 => pure ()
    | k + 1 => do
      let index ← readU16
      if index ≠ kBuiltin_Symbol then do
        match ownedSymbols.get? index with
        | some s => addWithoutOwnership s
        | none => throwE .oobOwnedIndex
        d.visLoop ownedSymbols k
      else do
        let name ← readString
        let t ← getTableRaw
        match rootLookup t name with
        | some s => addWithoutOwnership s
        | none => throwE .builtinLookupFailed
        d.visLoop ownedSymbols k
  statement := do
    let kind ← readU8
    if kind = kBlock_Command then
      withScope d.symbolTable (do
        let count ← readU8
        let statements ← d.stmtLoop count
        let blockKind ← readU8
        let t ← getTableRaw
        pure (some (Stmt.block statements blockKind t)))
    else if kind = kBreak_Command then
      pure (some Stmt.breakStmt)
    else if kind = kContinue_Command then
      pure (some Stmt.continueStmt)
    else if kind = kDiscard_Command then
      pure (some Stmt.discardStmt)
    else if kind = kDo_Command then do
      let stmt ← d.statement
      let expr ← d.expression
      pure (some (Stmt.doStmt stmt expr))
    else if kind = kExpressionStatement_Command then do
      let expr ← d.expression
      pure (some (Stmt.exprStmt expr))
    else if kind = kFor_Command then
      withScope d.symbolTable (do
        let initializer ← d.statement
        let test ← d.expression
        let next ← d.expression
        let body ← d.statement
        let t ← getTableRaw
        pure (some (Stmt.forStmt initializer test next body t)))
    else if kind = kIf_Command then do
      let isStatic ← readU8
      let test ← d.expression
      let ifTrue ← d.statement
      let ifFalse ← d.statement
      pure (some (Stmt.ifStmt (isStatic ≠ 0) test ifTrue ifFalse))
    else if kind = kNop_Command then
      pure (some Stmt.nop)
    else if kind = kReturn_Command then do
      let expr ← d.expression
      pure (some (Stmt.ret expr))
    else if kind = kSwitch_Command then do
      let isStatic ← readU8
      withScope d.symbolTable (do
        let expr ← d.expression
        let caseCount ← readU8
        let cases ← d.caseLoop caseCount
        let t ← getTableRaw
        pure (some (Stmt.switchStmt (isStatic ≠ 0) expr cases t)))
    else if kind = kVarDeclaration_Command then do
      let v ← symbolRefAny
      let v ← asVariable v
      let baseType ← d.type
      let arraySize ← readU8
      let value ← d.expression
      pure (some (Stmt.varDecl v baseType arraySize value))
    else if kind = kVoid_Command then
      pure none
    else throwE .unknownStatementCmd
  stmtLoop := fun n =>
    match n with
    | 0 => pure []
    | k + 1 => do
      let s ← d.statement
      let rest ← d.stmtLoop k
      pure (s :: rest)
  caseLoop := fun n =>
    match n with
    | 0 => pure []
    | k + 1 => do
      let isDefault ← readU8
      if isDefault ≠ 0 then do
        let s ← d.statement
        let rest ← d.caseLoop k
        pure ((none, s) :: rest)
      else do
        let value ← readS32
        let s ← d.statement
        let rest ← d.caseLoop k
        pure ((some value, s) :: rest)
  expression := do
    let kind ← readU8
    if kind = kBinary_Command then do
      let left ← d.expression
      let op ← readU8
      let right ← d.expression
      pure (some (Expr.binary left op right))
    else if kind = kBoolLiteral_Command then do
      let value ← readU8
      pure (some (Expr.boolLit (value ≠ 0)))
    else if kind = kConstructorArray_Command then do
      let ty ← d.type
      let args ← d.exprArray
      pure (some (Expr.constructorArray ty args))
    else if kind = kConstructorArrayCast_Command then do
      let ty ← d.type
      let args ← d.exprArray
      match args with
      | [a] => pure (some (Expr.arrayCast ty a))
      | _ => throwE .arityMismatch
    else if kind = kConstructorCompound_Command then do
      let ty ← d.type
      let args ← d.exprArray
      pure (some (Expr.compound ty args))
    else if kind = kConstructorDiagonalMatrix_Command then do
      let ty ← d.type
      let args ← d.exprArray
      match args with
      | [a] => pure (some (Expr.diagonalMatrix ty a))
      | _ => throwE .arityMismatch
    else if kind = kConstructorMatrixResize_Command then do
      let ty ← d.type
      let args ← d.exprArray
      match args with
      | [a] => pure (some (Expr.matrixResize ty a))
      | _ => throwE .arityMismatch
    else if kind = kConstructorScalarCast_Command then do
      let ty ← d.type
      let args ← d.exprArray
      match args with
      | [a] => pure (some (Expr.scalarCast ty a))
      | _ => throwE .arityMismatch
    else if kind = kConstructorSplat_Command then do
      let ty ← d.type
      let args ← d.exprArray
      match args with
      | [a] => pure (some (Expr.splat ty a))
      | _ => throwE .arityMismatch
    else if kind = kConstructorStruct_Command then do
      let ty ← d.type
      let args ← d.exprArray
      pure (some (Expr.constructorStruct ty args))
    else if kind = kConstructorCompoundCast_Command then do
      let ty ← d.type
      let args ← d.exprArray
      match args with
      | [a] => pure (some (Expr.compoundCast ty a))
      | _ => throwE .arityMismatch
    else if kind = kFieldAccess_Command then do
      let base ← d.expression
      let index ← readU8
      let ownerKind ← readU8
      pure (some (Expr.fieldAccess base index ownerKind))
    else if kind = kFloatLiteral_Command then do
      let ty ← d.type
      let w ← readU32
      pure (some (Expr.floatLit ty w))
    else if kind = kFunctionCall_Command then do
      let ty ← d.type
      let sym ← possiblyBuiltinSymbolRef
      let args ← d.exprArray
      let f ← asFunctionDecl sym
      let f := findBestFunctionForCall f args
      pure (some (Expr.functionCall ty f args))
    else if kind = kIndex_Command then do
      let base ← d.expression
      let index ← d.expression
      pure (some (Expr.indexExpr base index))
    else if kind = kIntLiteral_Command then do
      let ty ← d.type
      if ty.isUnsigned then do
        let value ← readU32
        pure (some (Expr.intLit ty (value : Int)))
      else do
        let value ← readS32
        pure (some (Expr.intLit ty value))
    else if kind = kPostfix_Command then do
      let op ← readU8
      let operand ← d.expression
      pure (some (Expr.postfixOp op operand))
    else if kind = kPrefix_Command then do
      let op ← readU8
      let operand ← d.expression
      pure (some (Expr.prefixOp op operand))
    else if kind = kSetting_Command then do
      let name ← readString
      pure (some (Expr.setting name))
    else if kind = kSwizzle_Command then do
      let base ← d.expression
      let count ← readU8
      let components ← readBytesLoop count
      pure (some (Expr.swizzle base components))
    else if kind = kTernary_Command then do
      let test ← d.expression
      let ifTrue ← d.expression
      let ifFalse ← d.expression
      pure (some (Expr.ternary test ifTrue ifFalse))
    else if kind = kVariableReference_Command then do
      let sym ← possiblyBuiltinSymbolRef
      let v ← asVariable sym
      let refKind ← readU8
      pure (some (Expr.varRef v refKind))
    else if kind = kVoid_Command then
      pure none
    else throwE .unknownExpressionCmd
  exprLoop := fun n =>
    match n with
    | 0 => pure []
    | k + 1 => do
      let e ← d.expression
      let rest ← d.exprLoop k
      pure (e :: rest)
  exprArray := do
    let count ← readU8
    d.exprLoop count
  element := do
    let kind ← readU8
    if kind = kFunctionDefinition_Command then do
      let decl ← symbolRefAny
      let decl ← asFunctionDecl decl
      let body ← d.statement
      let bi ← tableIsBuiltin
      pure (some (Elem.functionDef decl body bi))
    else if kind = kFunctionPrototype_Command then do
      let decl ← symbolRefAny
      let decl ← asFunctionDecl decl
      pure (some (Elem.functionProto decl))
    else if kind = kGlobalVar_Command then do
      let decl ← d.statement
      pure (some (Elem.globalVar decl))
    else if kind = kInterfaceBlock_Command then do
      let v ← d.symbol
      let v ← asVariable v
      let typeName ← readString
      let instanceName ← readString
      let arraySize ← readU8
      pure (some (Elem.interfaceBlock v typeName instanceName arraySize))
    else if kind = kStructDefinition_Command then do
      let ty ← d.symbol
      if ty.isTypeKind then pure (some (Elem.structDef ty))
      else throwE .notType
    else if kind = kSharedFunction_Command then do
      let count ← readU8
      let _params ← d.paramLoop count
      let decl ← d.symbol
      let _decl ← asFunctionDecl decl
      let result ← d.element
      match result with
      | some (Elem.functionDef f body bi) =>
          pure (some (Elem.functionDef f body bi))
      | _ => throwE .badSharedFunction
    else if kind = kElementsComplete_Command then
      pure none
    else throwE .unknownElementCmd
  elemLoop := do
    let e ← d.element
    match e with
    | none => pure []
    | some el => do
      let rest ← d.elemLoop
      pure (el :: rest)

/-- The fuelled decoder bundle. -/
def decoders : Nat → Decoders
  | 0 => decodersZero
  | fuel + 1 => mkStep (decoders fuel)


/-- `Rehydrator::symbol` at a fuel level. -/
def symbolFn (fuel : Nat) : M Symbol :=
  (decoders fuel).symbol

/-- `Rehydrator::type` at a fuel level. -/
def typeFn (fuel : Nat) : M Symbol :=
  (decoders fuel).type

/-- `Rehydrator::symbolTable` at a fuel level. -/
def symbolTableFn (fuel : Nat) : M (Option SymbolTable) :=
  (decoders fuel).symbolTable

/-- The owned-symbols pass of `Rehydrator::symbolTable`. -/
def ownedLoopFn (fuel : Nat) (n : Nat) : M (List Symbol) :=
  (decoders fuel).ownedLoop n

/-- The visible-bindings pass of `Rehydrator::symbolTable`
(source lines 638-655). -/
def visLoopFn (fuel : Nat) (ownedSymbols : List Symbol) (n : Nat) : M Unit :=
  (decoders fuel).visLoop ownedSymbols n

/-- `Rehydrator::statement` at a fuel level. -/
def statementFn (fuel : Nat) : M (Option Stmt) :=
  (decoders fuel).statement

/-- `Rehydrator::expression` at a fuel level. -/
def expressionFn (fuel : Nat) : M (Option Expr) :=
  (decoders fuel).expression

/-- `Rehydrator::expressionArray` at a fuel level. -/
def expressionArrayFn (fuel : Nat) : M (List (Option Expr)) :=
  (decoders fuel).exprArray

/-- `Rehydrator::element` at a fuel level. -/
def elementFn (fuel : Nat) : M (Option Elem) :=
  (decoders fuel).element

/-- `Rehydrator::elements`: check the list-header tag, then decode elements
until the terminator produces an absent element. -/
def elementsFn (fuel : Nat) : M (List Elem) := do
  let command ← readU8
  if command = kElements_Command then
    (decoders fuel).elemLoop
  else throwE .badElementsCmd

/-- `Rehydrator::program` (source lines 268-303): read the program header,
install a transient configuration and a fresh modifiers pool (saving the
ambient ones), select the builtin base module as current scope, decode the
root scope and the element list, restore the saved ambient state, read the
trailing input flag, detach the session arena into the result, assemble the
`Program`, pop one scope level, and end the DSL session. -/
def programFn (fuel : Nat) : M Program := do
  let command ← readU8
  if command = kProgram_Command then do
    let kind ← readU8
    let requiredVersion ← readU8
    let config : Config := ⟨kind, requiredVersion, versionK300⟩
    let oldConfig ← getConfig
    let oldModifiersPool ← getModPool
    setConfig (some config)
    modifyState fun st => { st with table := st.moduleFor kind }
    dslStart
    setModPool []
    let _root ← symbolTableFn fuel
    let elements ← elementsFn fuel
    let newModifiersPool ← getModPool
    setConfig oldConfig
    setModPool oldModifiersPool
    let flip ← readU8
    let pool ← detachPool
    let t ← getTableRaw
    let result : Program :=
      ⟨config, elements, t, flip ≠ 0, pool, newModifiersPool⟩
    match t with
    | [] => throwE .nullTable
    | _ :: parent => setTableRaw parent
    dslEnd
    pure result
  else throwE .badProgramCmd

/-- The `Rehydrator` constructor (source lines 105-119): check the symbol
table is a builtin root, read and check the 16-bit format version, read the
16-bit string-blob length and skip that many bytes of string data. -/
def rehydratorInit : M Unit := do
  let bi ← tableIsBuiltin
  if bi then do
    let version ← readU16
    if version = kVersion then do
      let stringLength ← readU16
      modifyState fun st => { st with ip := st.ip + stringLength }
    else throwE .badVersion
  else throwE .nullTable

/-- One complete decode session: construction, one program decode, and the
destructor's exhaustion check `SkASSERT(fIP == fEnd)`. -/
def sessionFn (fuel : Nat) : M Program := do
  rehydratorInit
  let p ← programFn fuel
  let st ← getState
  if st.ip = st.buf.length then pure p
  else throwE .leftoverBytes


/-! ### Proof toolkit: running the monad -/

/-- Unfolding of `bind` on the decode monad. -/
theorem M.bind_def {α β : Type} (m : M α) (f : α → M β) (s : St) :
    (m >>= f) s =
      match m s with
      | .ok (a, s1) => f a s1
      | .error e => .error e :=
  rfl

/-- A bind succeeds exactly when both stages succeed in sequence. -/
theorem M.bind_ok_iff {α β : Type} (m : M α) (f : α → M β) (s : St)
    (r : β × St) :
    (m >>= f) s = .ok r ↔ ∃ a s1, m s = .ok (a, s1) ∧ f a s1 = .ok r := by
  constructor
  · intro h
    rw [M.bind_def] at h
    cases hm : m s with
    | ok p =>
        refine ⟨p.1, p.2, rfl, ?_⟩
        rw [hm] at h
        exact h
    | error e => rw [hm] at h; exact absurd h (by simp)
  · rintro ⟨a, s1, h1, h2⟩
    rw [M.bind_def, h1]
    exact h2

/-- Running `pure`. -/
theorem M.pure_ok_iff {α : Type} (a : α) (s : St) (r : α × St) :
    (pure a : M α) s = .ok r ↔ r = (a, s) := by
  constructor
  · intro h
    have h' : Except.ok (ε := Err) (a, s) = .ok r := h
    exact (Except.ok.inj h').symm
  · intro h; cases h; rfl

/-- `throwE` never succeeds. -/
theorem throwE_ne_ok {α : Type} (e : Err) (s : St) (r : α × St) :
    throwE e s ≠ .ok r := by
  intro h
  exact absurd h (by simp [throwE])

/-- Running `getState`. -/
theorem getState_ok_iff (s : St) (r : St × St) :
    getState s = .ok r ↔ r = (s, s) := by
  constructor
  · intro h; cases h; rfl
  · intro h; cases h; rfl

/-- Running `modifyState`. -/
theorem modifyState_ok_iff (f : St → St) (s : St) (r : Unit × St) :
    modifyState f s = .ok r ↔ r = ((), f s) := by
  constructor
  · intro h; cases h; rfl
  · intro h; cases h; rfl

/-- Running `getTableRaw`. -/
theorem getTableRaw_ok_iff (s : St) (r : SymbolTable × St) :
    getTableRaw s = .ok r ↔ r = (s.table, s) := by
  constructor
  · intro h; cases h; rfl
  · intro h; cases h; rfl

/-- Running `setTableRaw`. -/
theorem setTableRaw_ok_iff (t : SymbolTable) (s : St) (r : Unit × St) :
    setTableRaw t s = .ok r ↔ r = ((), { s with table := t }) := by
  constructor
  · intro h; cases h; rfl
  · intro h; cases h; rfl

/-- Running `readU8`: success decomposition. -/
theorem readU8_ok {s : St} {b : Nat} {s1 : St}
    (h : readU8 s = .ok (b, s1)) :
    ∃ c, s.buf.get? s.ip = some c ∧ b = c % 256 ∧
      s1 = { s with ip := s.ip + 1 } := by
  unfold readU8 at h
  cases hc : s.buf.get? s.ip with
  | none => rw [hc] at h; exact absurd h (by simp)
  | some c =>
      rw [hc] at h
      refine ⟨c, rfl, ?_, ?_⟩
      · cases h; rfl
      · cases h; rfl

/-- Running `readU8` when the byte is known. -/
theorem readU8_ok_of_get {s : St} {c : Nat}
    (h : s.buf.get? s.ip = some c) :
    readU8 s = .ok (c % 256, { s with ip := s.ip + 1 }) := by
  unfold readU8
  rw [h]

/-- `readU8` leaves everything but the cursor unchanged. -/
theorem readU8_state {s : St} {b : Nat} {s1 : St}
    (h : readU8 s = .ok (b, s1)) : s1 = { s with ip := s.ip + 1 } := by
  obtain ⟨c, _, _, h3⟩ := readU8_ok h
  exact h3

/-- Running `readString`: success decomposition. -/
theorem readString_ok {s : St} {x : String} {s1 : St}
    (h : readString s = .ok (x, s1)) :
    s.strs = x :: s1.strs ∧ s1 = { s with strs := s1.strs } := by
  unfold readString at h
  cases hs : s.strs with
  | nil => rw [hs] at h; exact absurd h (by simp)
  | cons y rest =>
      rw [hs] at h
      cases h
      exact ⟨rfl, rfl⟩

/-- The state effect of a successful `withScope` run: the ambient current
scope is restored to its starting value on exit, whatever the nested symbol
table decode and body did. -/
theorem withScope_ok_table {α : Type} (mt : M (Option SymbolTable))
    (body : M α) {s : St} {a : α} {s' : St}
    (h : withScope mt body s = .ok (a, s')) :
    s'.table = s.table := by
  unfold withScope at h
  simp only [M.bind_ok_iff, getTableRaw_ok_iff, Prod.mk.injEq] at h
  obtain ⟨old, s0, ⟨rfl, rfl⟩, syms, s1, _h1, h⟩ := h
  cases syms with
  | none =>
      simp only [M.bind_ok_iff, M.pure_ok_iff, setTableRaw_ok_iff,
        Prod.mk.injEq] at h
      obtain ⟨u, s2, ⟨-, rfl⟩, b, s3, _hb, v, s4, ⟨-, rfl⟩, rfl, rfl⟩ := h
      rfl
  | some t =>
      simp only [M.bind_ok_iff, M.pure_ok_iff, setTableRaw_ok_iff,
        Prod.mk.injEq] at h
      obtain ⟨u, s2, ⟨-, rfl⟩, b, s3, _hb, v, s4, ⟨-, rfl⟩, rfl, rfl⟩ := h
      rfl

/-! ### Witness environment: a tiny builtin root scope and session states -/

/-- A builtin scalar type for witnesses. -/
def wSymFloat : Symbol :=
  .scalarType "float" false

/-- An unsigned builtin scalar type for witnesses. -/
def wSymUInt : Symbol :=
  .scalarType "uint" true

/-- A one-frame builtin root scope holding the two scalar types. -/
def wRoot : ScopeFrame :=
  ⟨true, [], [], [("float", wSymFloat), ("uint", wSymUInt)]⟩

/-- A concrete session state over a given byte buffer and string blob, with
the builtin root installed and two pre-registered symbol ids. -/
def wSt (buf : List Nat) (strs : List String) : St where
  buf := buf
  ip := 0
  strs := strs
  ids := [(7, wSymFloat), (8, wSymUInt)]
  table := [wRoot]
  config := none
  modPool := []
  threadPool := none
  nextPool := 0
  modules := [(0, [wRoot])]

/-! ### C2: scope balance around Block / For / Switch -/

/-- C2: for every Block, For, or Switch statement decoded, the ambient
current symbol table immediately after the statement decode returns equals
its value immediately before the decode began, even though a child scope is
pushed and used during the decode. -/
theorem c2_scope_balance (fuel : Nat) (st st1 stF : St) (r : Option Stmt)
    (t : Nat) (hr : readU8 st = .ok (t, st1))
    (ht : t = kBlock_Command ∨ t = kFor_Command ∨ t = kSwitch_Command)
    (h : statementFn (fuel + 1) st = .ok (r, stF)) :
    stF.table = st.table := by
  have hip : st1 = { st with ip := st.ip + 1 } := readU8_state hr
  have htab : st1.table = st.table := by rw [hip]
  simp only [statementFn, decoders, mkStep] at h
  rw [M.bind_ok_iff] at h
  obtain ⟨k, s1, hk, h⟩ := h
  rw [hr] at hk
  obtain ⟨rfl, rfl⟩ := Prod.mk.inj (Except.ok.inj hk)
  rcases ht with rfl | rfl | rfl
  · rw [if_pos rfl] at h
    exact (withScope_ok_table _ _ h).trans htab
  · rw [if_neg (by decide), if_neg (by decide), if_neg (by decide),
      if_neg (by decide), if_neg (by decide), if_neg (by decide),
      if_pos rfl] at h
    exact (withScope_ok_table _ _ h).trans htab
  · rw [if_neg (by decide), if_neg (by decide), if_neg (by decide),
      if_neg (by decide), if_neg (by decide), if_neg (by decide),
      if_neg (by decide), if_neg (by decide), if_neg (by decide),
      if_neg (by decide), if_pos rfl] at h
    rw [M.bind_ok_iff] at h
    obtain ⟨b2, s2, hb2, h⟩ := h
    have hs2 : s2 = { st1 with ip := st1.ip + 1 } := readU8_state hb2
    have : stF.table = s2.table := withScope_ok_table _ _ h
    rw [this, hs2, hip]

/-- C2 witness: a concrete empty block with a Void scope table decodes
successfully and leaves the ambient scope exactly as it was. -/
theorem c2_scope_balance_witness :
    ({ wSt [kBlock_Command, kVoid_Command, 0, 1] [] with ip := 4 } : St).table =
      (wSt [kBlock_Command, kVoid_Command, 0, 1] []).table :=
  c2_scope_balance 8 (wSt [kBlock_Command, kVoid_Command, 0, 1] [])
    { wSt [kBlock_Command, kVoid_Command, 0, 1] [] with ip := 1 }
    { wSt [kBlock_Command, kVoid_Command, 0, 1] [] with ip := 4 }
    (some (Stmt.block [] 1 [wRoot])) kBlock_Command (by rfl) (Or.inl rfl)
    (by rfl)


/-- Stepping a bind over an already-known first stage. -/
theorem M.bind_ok_then {α β : Type} {m : M α} {f : α → M β} {s : St}
    {a : α} {s1 : St} (h : m s = .ok (a, s1)) :
    (m >>= f) s = f a s1 := by
  rw [M.bind_def, h]

/-- Evaluating `tableIsBuiltin` on a non-null chain. -/
theorem tableIsBuiltin_run_cons {s : St} {f : ScopeFrame}
    {rest : List ScopeFrame} (htab : s.table = f :: rest) :
    tableIsBuiltin s = .ok (f.builtin, s) := by
  unfold tableIsBuiltin
  rw [M.bind_ok_then (show getTableRaw s = .ok (s.table, s) from rfl)]
  rw [htab]
  rfl

/-- Running `tableIsBuiltin`: a pure read of the head frame's flag. -/
theorem tableIsBuiltin_ok {s : St} {b : Bool} {s1 : St}
    (h : tableIsBuiltin s = .ok (b, s1)) :
    s1 = s ∧ s.table.head?.map ScopeFrame.builtin = some b := by
  cases htab : s.table with
  | nil =>
      unfold tableIsBuiltin at h
      rw [M.bind_ok_then (show getTableRaw s = .ok (s.table, s) from rfl),
        htab] at h
      exact absurd h (by simp [throwE])
  | cons f rest =>
      rw [tableIsBuiltin_run_cons htab] at h
      obtain ⟨h1, h2⟩ := Prod.mk.inj (Except.ok.inj h)
      exact ⟨h2.symm, by simp [htab, h1]⟩

/-! ### Wire-level pure views of multi-byte reads -/

/-- The 16-bit little-endian value stored at byte offset `i`. -/
def u16At (buf : List Nat) (i : Nat) : Option Nat :=
  match buf.get? i, buf.get? (i + 1) with
  | some a, some b => some (a % 256 + 256 * (b % 256))
  | _, _ => none

/-- The 32-bit little-endian value stored at byte offset `i`. -/
def u32At (buf : List Nat) (i : Nat) : Option Nat :=
  match buf.get? i, buf.get? (i + 1), buf.get? (i + 2), buf.get? (i + 3) with
  | some a, some b, some c, some d =>
      some (a % 256 + 256 * (b % 256) + 65536 * (c % 256) +
        16777216 * (d % 256))
  | _, _, _, _ => none

/-- Running `readU16`: success decomposition against the pure view. -/
theorem readU16_ok {s : St} {v : Nat} {s1 : St}
    (h : readU16 s = .ok (v, s1)) :
    u16At s.buf s.ip = some v ∧ s1 = { s with ip := s.ip + 2 } := by
  unfold readU16 at h
  rw [M.bind_ok_iff] at h
  obtain ⟨a, sa, ha, h⟩ := h
  obtain ⟨c0, hc0, rfl, rfl⟩ := readU8_ok ha
  rw [M.bind_ok_iff] at h
  obtain ⟨b, sb, hb, h⟩ := h
  obtain ⟨c1, hc1, rfl, rfl⟩ := readU8_ok hb
  rw [M.pure_ok_iff] at h
  cases h
  refine ⟨?_, rfl⟩
  simp only [u16At, hc0]
  simp only at hc1
  rw [hc1]

/-- Running `readU32`: success decomposition against the pure view. -/
theorem readU32_ok {s : St} {v : Nat} {s1 : St}
    (h : readU32 s = .ok (v, s1)) :
    u32At s.buf s.ip = some v ∧ s1 = { s with ip := s.ip + 4 } := by
  unfold readU32 at h
  rw [M.bind_ok_iff] at h
  obtain ⟨a, sa, ha, h⟩ := h
  obtain ⟨c0, hc0, rfl, rfl⟩ := readU8_ok ha
  rw [M.bind_ok_iff] at h
  obtain ⟨b, sb, hb, h⟩ := h
  obtain ⟨c1, hc1, rfl, rfl⟩ := readU8_ok hb
  rw [M.bind_ok_iff] at h
  obtain ⟨c, sc, hc, h⟩ := h
  obtain ⟨c2, hc2, rfl, rfl⟩ := readU8_ok hc
  rw [M.bind_ok_iff] at h
  obtain ⟨d, sd, hd, h⟩ := h
  obtain ⟨c3, hc3, rfl, rfl⟩ := readU8_ok hd
  rw [M.pure_ok_iff] at h
  cases h
  refine ⟨?_, rfl⟩
  simp only [u32At, hc0]
  simp only at hc1 hc2 hc3
  rw [hc1, hc2, hc3]

/-! ### C8: header decode and version check -/

/-- C8: session construction reads a 16-bit format version followed by a
16-bit string-blob length and advances the cursor past exactly that many
bytes of string data before any body decoding; a mismatch between the wire
format version and the decoder's expected version is fatal. -/
theorem c8_header_version :
    (∀ (st : St) (u : Unit) (stF : St),
      rehydratorInit st = .ok (u, stF) →
      ∃ L, u16At st.buf st.ip = some kVersion ∧
        u16At st.buf (st.ip + 2) = some L ∧
        stF = { st with ip := st.ip + 2 + 2 + L }) ∧
    (∀ (st st2 : St) (v : Nat) (f : ScopeFrame) (rest : List ScopeFrame),
      st.table = f :: rest → f.builtin = true →
      readU16 st = .ok (v, st2) → v ≠ kVersion →
      rehydratorInit st = .error .badVersion) := by
  constructor
  · intro st u stF h
    unfold rehydratorInit at h
    rw [M.bind_ok_iff] at h
    obtain ⟨bi, s0, hbi, h⟩ := h
    obtain ⟨rfl, _⟩ := tableIsBuiltin_ok hbi
    cases bi with
    | false => rw [if_neg (by simp)] at h; exact absurd h (throwE_ne_ok _ _ _)
    | true =>
        rw [if_pos rfl] at h
        rw [M.bind_ok_iff] at h
        obtain ⟨v, s1, hv, h⟩ := h
        obtain ⟨hu16, rfl⟩ := readU16_ok hv
        by_cases hver : v = kVersion
        · subst hver
          rw [if_pos rfl] at h
          rw [M.bind_ok_iff] at h
          obtain ⟨L, s2, hL, h⟩ := h
          obtain ⟨hu16L, rfl⟩ := readU16_ok hL
          rw [modifyState_ok_iff] at h
          obtain ⟨rfl, rfl⟩ := Prod.mk.inj h
          exact ⟨L, hu16, hu16L, rfl⟩
        · rw [if_neg hver] at h
          exact absurd h (throwE_ne_ok _ _ _)
  · intro st st2 v f rest htab hfb hv hne
    unfold rehydratorInit
    rw [M.bind_ok_then (tableIsBuiltin_run_cons htab)]
    simp only [hfb, if_pos]
    rw [M.bind_ok_then hv]
    simp only [if_neg hne]
    rfl

/-- C8 witness: a concrete header with the right version and a two-byte
string blob is accepted with the cursor advanced past the blob; a wrong
version byte aborts. -/
theorem c8_header_version_witness :
    (∃ L, u16At (wSt [9, 0, 2, 0, 65, 66] []).buf 0 = some kVersion ∧
      u16At (wSt [9, 0, 2, 0, 65, 66] []).buf 2 = some L ∧
      ({ wSt [9, 0, 2, 0, 65, 66] [] with ip := 6 } : St) =
        { wSt [9, 0, 2, 0, 65, 66] [] with ip := 0 + 2 + 2 + L }) ∧
    rehydratorInit (wSt [8, 0, 0, 0] []) = .error .badVersion := by
  constructor
  · exact c8_header_version.1 (wSt [9, 0, 2, 0, 65, 66] []) ()
      { wSt [9, 0, 2, 0, 65, 66] [] with ip := 6 } (by rfl)
  · exact c8_header_version.2 (wSt [8, 0, 0, 0] [])
      { wSt [8, 0, 0, 0] [] with ip := 2 } 8 wRoot [] (by rfl) (by rfl)
      (by rfl) (by decide)


/-! ### IEEE-754 single-precision view of 32-bit patterns -/

/-- The real value denoted by a finite 32-bit IEEE-754 pattern: sign,
8-bit biased exponent, 23-bit significand; subnormals at exponent 0.
This interprets the bit pattern the decoder reproduces verbatim. -/
def ieee32Val (w : Nat) : ℚ :=
  (if (w / 2 ^ 31) % 2 = 1 then (-1 : ℚ) else 1) *
    (if (w / 2 ^ 23) % 2 ^ 8 = 0 then
      (w % 2 ^ 23 : Nat) * (2 : ℚ) ^ (-149 : ℤ)
     else ((2 ^ 23 + w % 2 ^ 23 : Nat) : ℚ) *
       (2 : ℚ) ^ ((((w / 2 ^ 23) % 2 ^ 8 : Nat) : ℤ) - 150))

/-- A rational is a finite 32-bit float value when some finite pattern
denotes it. -/
def isF32 (x : ℚ) : Prop :=
  ∃ w : Nat, w < 2 ^ 32 ∧ (w / 2 ^ 23) % 2 ^ 8 ≠ 255 ∧ ieee32Val w = x

/-- The π wire pattern `0x40490FDB` denotes `13176795 / 2^22`. -/
theorem ieee32Val_pi_pattern : ieee32Val 1078530011 = 13176795 / 4194304 := by
  norm_num [ieee32Val]

/-- Every finite 32-bit float value either lies on the spacing-`2^-22` grid
of the binade `[2, 4)` or falls outside `(2, 4)` entirely. -/
theorem ieee32_trichotomy (w : Nat) (hw : w < 2 ^ 32)
    (hfin : (w / 2 ^ 23) % 2 ^ 8 ≠ 255) :
    (∃ k : Nat, 2 ^ 23 ≤ k ∧ k < 2 ^ 24 ∧ ieee32Val w = (k : ℚ) / 4194304) ∨
      ieee32Val w ≤ 2 ∨ 4 ≤ ieee32Val w := by
  unfold ieee32Val
  set s : Nat := w / 2 ^ 31 with hs
  set e : Nat := (w / 2 ^ 23) % 2 ^ 8 with he
  set m : Nat := w % 2 ^ 23 with hm
  have hm23 : m < 2 ^ 23 := Nat.mod_lt _ (by norm_num)
  have he255 : e < 2 ^ 8 := Nat.mod_lt _ (by norm_num)
  by_cases hsign : s % 2 = 1
  · refine Or.inr (Or.inl ?_)
    rw [if_pos hsign]
    by_cases he0 : e = 0
    · rw [if_pos he0]
      have h0 : (0 : ℚ) ≤ ((m : Nat) : ℚ) * (2 : ℚ) ^ (-149 : ℤ) := by
        positivity
      nlinarith
    · rw [if_neg he0]
      have h0 : (0 : ℚ) ≤
          ((2 ^ 23 + m : Nat) : ℚ) * (2 : ℚ) ^ ((e : ℤ) - 150) := by
        positivity
      nlinarith
  · rw [if_neg hsign]
    by_cases he0 : e = 0
    · refine Or.inr (Or.inl ?_)
      rw [if_pos he0]
      have h1 : ((m : Nat) : ℚ) ≤ 2 ^ 23 := by exact_mod_cast hm23.le
      have h2 : (2 : ℚ) ^ (-149 : ℤ) = 1 / 2 ^ 149 := by
        rw [zpow_neg]
        norm_num
      rw [h2]
      have h3 : (m : ℚ) * (1 / 2 ^ 149) ≤ 2 ^ 23 * (1 / 2 ^ 149) := by
        apply mul_le_mul_of_nonneg_right h1
        positivity
      calc (1 : ℚ) * ((m : ℚ) * (1 / 2 ^ 149))
          = (m : ℚ) * (1 / 2 ^ 149) := by ring
        _ ≤ 2 ^ 23 * (1 / 2 ^ 149) := h3
        _ ≤ 2 := by norm_num
    · rw [if_neg he0]
      have hzpow : (2 : ℚ) ^ ((e : ℤ) - 150) = 2 ^ e / 2 ^ 150 := by
        rw [zpow_sub₀ (by norm_num : (2 : ℚ) ≠ 0)]
        norm_num [zpow_natCast]
      rw [hzpow]
      have hmlo : ((2 ^ 23 : Nat) : ℚ) ≤ ((2 ^ 23 + m : Nat) : ℚ) := by
        exact_mod_cast Nat.le_add_right _ _
      have hmhi : ((2 ^ 23 + m : Nat) : ℚ) < 2 ^ 24 := by
        have : (2 ^ 23 + m : Nat) < 2 ^ 24 := by omega
        exact_mod_cast this
      rcases lt_trichotomy e 128 with hlt | heq | hgt
      · refine Or.inr (Or.inl ?_)
        have hle : e ≤ 127 := by omega
        have hp : (2 : ℚ) ^ e ≤ 2 ^ 127 := by
          exact_mod_cast Nat.pow_le_pow_right (by norm_num) hle
        calc (1 : ℚ) * (((2 ^ 23 + m : Nat) : ℚ) * (2 ^ e / 2 ^ 150))
            = ((2 ^ 23 + m : Nat) : ℚ) * 2 ^ e / 2 ^ 150 := by ring
          _ ≤ 2 ^ 24 * 2 ^ 127 / 2 ^ 150 := by gcongr
          _ ≤ 2 := by norm_num
      · refine Or.inl ⟨2 ^ 23 + m, by omega, by omega, ?_⟩
        rw [heq]
        push_cast
        rw [show ((2 : ℚ) ^ 128 / 2 ^ 150) = 1 / 4194304 by norm_num]
        ring
      · refine Or.inr (Or.inr ?_)
        have hge : 129 ≤ e := by omega
        have hp : (2 : ℚ) ^ 129 ≤ 2 ^ e := by
          exact_mod_cast Nat.pow_le_pow_right (by norm_num) hge
        calc (4 : ℚ) = 2 ^ 23 * 2 ^ 129 / 2 ^ 150 := by norm_num
          _ ≤ ((2 ^ 23 + m : Nat) : ℚ) * 2 ^ e / 2 ^ 150 := by
              gcongr
              exact le_trans (by norm_num) hmlo
          _ = 1 * (((2 ^ 23 + m : Nat) : ℚ) * (2 ^ e / 2 ^ 150)) := by ring

/-- `13176795 / 2 ^ 22` is the finite 32-bit float value nearest to π:
it is within half a grid step of π, every other value of its binade is at
least a full grid step away, and every value outside the binade is far
away. -/
theorem nearest_pi_of_isF32 (x : ℚ) (hx : isF32 x) :
    |(13176795 / 4194304 : ℝ) - Real.pi| ≤ |(x : ℝ) - Real.pi| := by
  obtain ⟨w, hw, hfin, hval⟩ := hx
  have htri := ieee32_trichotomy w hw hfin
  rw [hval] at htri
  have hpilo : (3.14159265358979323846 : ℝ) < Real.pi := Real.pi_gt_d20
  have hpihi : Real.pi < 3.14159265358979323847 := Real.pi_lt_d20
  have hnum1 : (13176795 / 4194304 : ℝ) - 1 / 8388608 ≤
      3.14159265358979323846 := by norm_num
  have hnum2 : (3.14159265358979323847 : ℝ) ≤ 13176795 / 4194304 := by
    norm_num
  have hvpi : |(13176795 / 4194304 : ℝ) - Real.pi| ≤ 1 / 8388608 := by
    rw [abs_le]
    constructor <;> linarith
  rcases htri with ⟨k, hk1, hk2, hkeq⟩ | hle | hge
  · by_cases hk : k = 13176795
    · subst hk
      have hxv : ((x : ℚ) : ℝ) = (13176795 / 4194304 : ℝ) := by
        rw [hkeq]; push_cast; norm_num
      rw [hxv]
    · have hxr : ((x : ℚ) : ℝ) = (k : ℝ) / 4194304 := by
        rw [hkeq]; push_cast; ring
      have hsep : (1 : ℝ) ≤ |(k : ℝ) - 13176795| := by
        rcases lt_or_gt_of_ne hk with hlt | hgt
        · have hcast : (k : ℝ) ≤ 13176794 := by
            exact_mod_cast Nat.le_sub_one_of_lt hlt
          rw [abs_sub_comm, abs_of_nonneg (by linarith)]
          linarith
        · have hcast : (13176796 : ℝ) ≤ (k : ℝ) := by exact_mod_cast hgt
          rw [abs_of_nonneg (by linarith)]
          linarith
      have hdist : (1 / 4194304 : ℝ) ≤
          |(k : ℝ) / 4194304 - 13176795 / 4194304| := by
        rw [div_sub_div_same, abs_div,
          abs_of_pos (by norm_num : (0 : ℝ) < 4194304)]
        gcongr
      have htriangle : |(k : ℝ) / 4194304 - (13176795 / 4194304 : ℝ)| -
          |(13176795 / 4194304 : ℝ) - Real.pi| ≤
          |(k : ℝ) / 4194304 - Real.pi| := by
        have h3 := abs_sub_abs_le_abs_sub
          ((k : ℝ) / 4194304 - (13176795 / 4194304 : ℝ))
          ((k : ℝ) / 4194304 - Real.pi)
        have heq2 : (k : ℝ) / 4194304 - (13176795 / 4194304 : ℝ) -
            ((k : ℝ) / 4194304 - Real.pi) =
            -(13176795 / 4194304 - Real.pi) := by ring
        rw [heq2, abs_neg] at h3
        linarith
      rw [hxr]
      linarith
  · have hxr : ((x : ℚ) : ℝ) ≤ 2 := by exact_mod_cast hle
    have habs : (2 : ℝ) - ((x : ℚ) : ℝ) + 1 ≤ |(x : ℝ) - Real.pi| := by
      rw [abs_sub_comm, abs_of_pos (by linarith)]
      linarith
    linarith
  · have hxr : (4 : ℝ) ≤ ((x : ℚ) : ℝ) := by exact_mod_cast hge
    have habs : (1 : ℝ) / 2 ≤ |(x : ℝ) - Real.pi| := by
      rw [abs_of_pos (by linarith)]
      linarith
    linarith


/-- Running `readS32`: sign extension of the 32-bit little-endian word. -/
theorem readS32_ok {s : St} {v : Int} {s1 : St}
    (h : readS32 s = .ok (v, s1)) :
    ∃ w, u32At s.buf s.ip = some w ∧ v = toSigned 32 w ∧
      s1 = { s with ip := s.ip + 4 } := by
  unfold readS32 at h
  rw [M.bind_ok_iff] at h
  obtain ⟨w, sw, hw, h⟩ := h
  obtain ⟨hu, rfl⟩ := readU32_ok hw
  rw [M.pure_ok_iff] at h
  obtain ⟨rfl, rfl⟩ := Prod.mk.inj h
  exact ⟨w, hu, rfl, rfl⟩

/-! ### C6: integer literals (zero- vs sign-extension) -/

/-- C6: for every IntLiteral expression decoded, the literal's type is
decoded first, and the 32-bit raw value is then read with zero-extension
when that type is unsigned and with sign-extension when it is signed. -/
theorem c6_int_literal (fuel : Nat) (st st1 stF : St) (r : Option Expr)
    (t : Nat) (hr : readU8 st = .ok (t, st1)) (ht : t = kIntLiteral_Command)
    (h : expressionFn (fuel + 1) st = .ok (r, stF)) :
    ∃ ty st2 w, typeFn fuel st1 = .ok (ty, st2) ∧
      u32At st2.buf st2.ip = some w ∧ stF = { st2 with ip := st2.ip + 4 } ∧
      (ty.isUnsigned = true → r = some (.intLit ty (w : Int))) ∧
      (ty.isUnsigned = false → r = some (.intLit ty (toSigned 32 w))) := by
  subst ht
  simp only [expressionFn, decoders, mkStep] at h
  rw [M.bind_ok_iff] at h
  obtain ⟨k, s1, hk, h⟩ := h
  rw [hr] at hk
  obtain ⟨rfl, rfl⟩ := Prod.mk.inj (Except.ok.inj hk)
  rw [if_neg (by decide), if_neg (by decide), if_neg (by decide),
    if_neg (by decide), if_neg (by decide), if_neg (by decide),
    if_neg (by decide), if_neg (by decide), if_neg (by decide),
    if_neg (by decide), if_neg (by decide), if_neg (by decide),
    if_neg (by decide), if_neg (by decide), if_neg (by decide),
    if_pos rfl] at h
  rw [M.bind_ok_iff] at h
  obtain ⟨ty, st2, hty, h⟩ := h
  cases hu : ty.isUnsigned with
  | true =>
      rw [if_pos hu] at h
      rw [M.bind_ok_iff] at h
      obtain ⟨w, s3, hw32, h⟩ := h
      obtain ⟨hu32, rfl⟩ := readU32_ok hw32
      rw [M.pure_ok_iff] at h
      obtain ⟨rfl, rfl⟩ := Prod.mk.inj h
      refine ⟨ty, st2, w, hty, hu32, rfl, fun _ => rfl, fun hf => ?_⟩
      rw [hu] at hf
      exact absurd hf (by simp)
  | false =>
      rw [if_neg (by rw [hu]; exact Bool.false_ne_true)] at h
      rw [M.bind_ok_iff] at h
      obtain ⟨v, s3, hv32, h⟩ := h
      obtain ⟨w, hu32, rfl, rfl⟩ := readS32_ok hv32
      rw [M.pure_ok_iff] at h
      obtain ⟨rfl, rfl⟩ := Prod.mk.inj h
      refine ⟨ty, st2, w, hty, hu32, rfl, fun hf => ?_, fun _ => rfl⟩
      rw [hu] at hf
      exact absurd hf (by simp)

/-- C6 witness: decoding an unsigned literal with wire word `0xFFFFFFFF`
zero-extends (the type is resolved to the builtin unsigned scalar). -/
theorem c6_int_literal_witness :
    ∃ ty st2 w,
      typeFn 8 { wSt [kIntLiteral_Command, kSymbolRef_Command, 8, 0,
        255, 255, 255, 255] [] with ip := 1 } = .ok (ty, st2) ∧
      u32At st2.buf st2.ip = some w ∧
      ({ wSt [kIntLiteral_Command, kSymbolRef_Command, 8, 0,
        255, 255, 255, 255] [] with ip := 8 } : St) =
        { st2 with ip := st2.ip + 4 } ∧
      (ty.isUnsigned = true →
        some (Expr.intLit wSymUInt 4294967295) = some (.intLit ty (w : Int))) ∧
      (ty.isUnsigned = false →
        some (Expr.intLit wSymUInt 4294967295) =
          some (.intLit ty (toSigned 32 w))) :=
  c6_int_literal 8
    (wSt [kIntLiteral_Command, kSymbolRef_Command, 8, 0, 255, 255, 255, 255] [])
    { wSt [kIntLiteral_Command, kSymbolRef_Command, 8, 0,
        255, 255, 255, 255] [] with ip := 1 }
    { wSt [kIntLiteral_Command, kSymbolRef_Command, 8, 0,
        255, 255, 255, 255] [] with ip := 8 }
    (some (Expr.intLit wSymUInt 4294967295)) kIntLiteral_Command (by rfl) rfl
    (by rfl)

/-! ### C5: float literals are reproduced bit for bit -/

/-- C5: for every FloatLiteral expression decoded, the 32-bit wire pattern
is reinterpreted bit-for-bit as an IEEE-754 single-precision value; in
particular the wire pattern `0x40490FDB` (1078530011) denotes the 32-bit
float value nearest to π. -/
theorem c5_float_literal (fuel : Nat) (st st1 stF : St) (r : Option Expr)
    (t : Nat) (hr : readU8 st = .ok (t, st1)) (ht : t = kFloatLiteral_Command)
    (h : expressionFn (fuel + 1) st = .ok (r, stF)) :
    ∃ ty st2 w, typeFn fuel st1 = .ok (ty, st2) ∧
      u32At st2.buf st2.ip = some w ∧ stF = { st2 with ip := st2.ip + 4 } ∧
      r = some (.floatLit ty w) ∧
      (w = 1078530011 →
        ieee32Val w = 13176795 / 4194304 ∧
        ∀ x : ℚ, isF32 x →
          |((ieee32Val w : ℚ) : ℝ) - Real.pi| ≤ |(x : ℝ) - Real.pi|) := by
  subst ht
  simp only [expressionFn, decoders, mkStep] at h
  rw [M.bind_ok_iff] at h
  obtain ⟨k, s1, hk, h⟩ := h
  rw [hr] at hk
  obtain ⟨rfl, rfl⟩ := Prod.mk.inj (Except.ok.inj hk)
  rw [if_neg (by decide), if_neg (by decide), if_neg (by decide),
    if_neg (by decide), if_neg (by decide), if_neg (by decide),
    if_neg (by decide), if_neg (by decide), if_neg (by decide),
    if_neg (by decide), if_neg (by decide), if_neg (by decide),
    if_pos rfl] at h
  rw [M.bind_ok_iff] at h
  obtain ⟨ty, st2, hty, h⟩ := h
  rw [M.bind_ok_iff] at h
  obtain ⟨w, s3, hw32, h⟩ := h
  obtain ⟨hu32, rfl⟩ := readU32_ok hw32
  rw [M.pure_ok_iff] at h
  obtain ⟨rfl, rfl⟩ := Prod.mk.inj h
  refine ⟨ty, st2, w, hty, hu32, rfl, rfl, ?_⟩
  rintro rfl
  refine ⟨ieee32Val_pi_pattern, fun x hx => ?_⟩
  rw [ieee32Val_pi_pattern]
  have hcast : (((13176795 / 4194304 : ℚ)) : ℝ) = (13176795 / 4194304 : ℝ) := by
    norm_num
  rw [hcast]
  exact nearest_pi_of_isF32 x hx

/-- C5 witness: decoding the concrete wire pattern `0x40490FDB` yields a
float literal holding exactly those bits. -/
theorem c5_float_literal_witness :
    ∃ ty st2 w,
      typeFn 8 { wSt [kFloatLiteral_Command, kSymbolRef_Command, 7, 0,
        219, 15, 73, 64] [] with ip := 1 } = .ok (ty, st2) ∧
      u32At st2.buf st2.ip = some w ∧
      ({ wSt [kFloatLiteral_Command, kSymbolRef_Command, 7, 0,
        219, 15, 73, 64] [] with ip := 8 } : St) =
        { st2 with ip := st2.ip + 4 } ∧
      some (Expr.floatLit wSymFloat 1078530011) = some (.floatLit ty w) ∧
      (w = 1078530011 →
        ieee32Val w = 13176795 / 4194304 ∧
        ∀ x : ℚ, isF32 x →
          |((ieee32Val w : ℚ) : ℝ) - Real.pi| ≤ |(x : ℝ) - Real.pi|) :=
  c5_float_literal 8
    (wSt [kFloatLiteral_Command, kSymbolRef_Command, 7, 0, 219, 15, 73, 64] [])
    { wSt [kFloatLiteral_Command, kSymbolRef_Command, 7, 0,
        219, 15, 73, 64] [] with ip := 1 }
    { wSt [kFloatLiteral_Command, kSymbolRef_Command, 7, 0,
        219, 15, 73, 64] [] with ip := 8 }
    (some (Expr.floatLit wSymFloat 1078530011)) kFloatLiteral_Command (by rfl)
    rfl (by rfl)


/-- The IR node a cast/resize/splat-family tag constructs from its single
argument. -/
def castNode (t : Nat) (ty : Symbol) (a : Option Expr) : Expr :=
  if t = kConstructorArrayCast_Command then .arrayCast ty a
  else if t = kConstructorCompoundCast_Command then .compoundCast ty a
  else if t = kConstructorDiagonalMatrix_Command then .diagonalMatrix ty a
  else if t = kConstructorMatrixResize_Command then .matrixResize ty a
  else if t = kConstructorScalarCast_Command then .scalarCast ty a
  else .splat ty a


/-! ### C7: the cast/resize/splat constructor family takes exactly one
argument -/

/-- The expression tags of the single-argument constructor family. -/
def castFamilyTags : List Nat :=
  [kConstructorArrayCast_Command, kConstructorCompoundCast_Command,
   kConstructorDiagonalMatrix_Command, kConstructorMatrixResize_Command,
   kConstructorScalarCast_Command, kConstructorSplat_Command]

/-- A successful argument-list decode returns exactly as many (possibly
null) expressions as the count byte demanded. -/
theorem exprLoop_length : ∀ (fuel n : Nat) (st : St)
    (args : List (Option Expr)) (st' : St),
    (decoders fuel).exprLoop n st = .ok (args, st') → args.length = n := by
  intro fuel
  induction fuel with
  | zero =>
      intro n st args st' h
      simp only [decoders, decodersZero] at h
      exact absurd h (throwE_ne_ok _ _ _)
  | succ f ih =>
      intro n st args st' h
      cases n with
      | zero =>
          simp only [decoders, mkStep] at h
          rw [M.pure_ok_iff] at h
          obtain ⟨rfl, rfl⟩ := Prod.mk.inj h
          rfl
      | succ k =>
          simp only [decoders, mkStep] at h
          rw [M.bind_ok_iff] at h
          obtain ⟨e, s1, he, h⟩ := h
          rw [M.bind_ok_iff] at h
          obtain ⟨rest, s2, hrest, h⟩ := h
          rw [M.pure_ok_iff] at h
          obtain ⟨rfl, rfl⟩ := Prod.mk.inj h
          simp [ih k _ _ _ hrest]

/-- C7: every constructor expression of the cast/resize/splat family
(ArrayCast, CompoundCast, DiagonalMatrix, MatrixResize, ScalarCast, Splat)
decodes a target type and then exactly one argument, and an encoded
argument list whose length differs from one is a fatal arity mismatch. -/
theorem c7_cast_family_arity :
    (∀ (fuel : Nat) (st st1 stF : St) (r : Option Expr) (t : Nat),
      readU8 st = .ok (t, st1) → t ∈ castFamilyTags →
      expressionFn (fuel + 1) st = .ok (r, stF) →
      ∃ ty st2 args st3 c stc, typeFn fuel st1 = .ok (ty, st2) ∧
        readU8 st2 = .ok (c, stc) ∧
        expressionArrayFn fuel st2 = .ok (args, st3) ∧
        c = 1 ∧ args.length = 1) ∧
    (∀ (fuel : Nat) (st st1 st2 st3 : St) (t : Nat) (ty : Symbol)
      (args : List (Option Expr)),
      readU8 st = .ok (t, st1) → t ∈ castFamilyTags →
      typeFn fuel st1 = .ok (ty, st2) →
      expressionArrayFn fuel st2 = .ok (args, st3) → args.length ≠ 1 →
      expressionFn (fuel + 1) st = .error .arityMismatch) := by
  have hstep : ∀ (fuel : Nat) (st st1 : St) (t : Nat),
      readU8 st = .ok (t, st1) → t ∈ castFamilyTags →
      expressionFn (fuel + 1) st = (do
        let ty ← (decoders fuel).type
        let args ← (decoders fuel).exprArray
        match args with
        | [a] => pure (some (castNode t ty a))
        | _ => throwE .arityMismatch) st1 := by
    intro fuel st st1 t hr hmem
    fin_cases hmem <;>
      (simp only [expressionFn, decoders, mkStep]
       rw [M.bind_ok_then hr]
       simp [castNode, kBinary_Command, kBoolLiteral_Command,
         kConstructorArray_Command, kConstructorArrayCast_Command,
         kConstructorCompound_Command, kConstructorDiagonalMatrix_Command,
         kConstructorMatrixResize_Command, kConstructorScalarCast_Command,
         kConstructorSplat_Command, kConstructorStruct_Command,
         kConstructorCompoundCast_Command, kFieldAccess_Command,
         kFloatLiteral_Command, kFunctionCall_Command, kIndex_Command,
         kIntLiteral_Command, kPostfix_Command, kPrefix_Command,
         kSetting_Command, kSwizzle_Command, kTernary_Command,
         kVariableReference_Command, kVoid_Command])
  have harr : ∀ (fuel : Nat) (st : St) (args : List (Option Expr)) (st' : St),
      (decoders fuel).exprArray st = .ok (args, st') →
      ∃ c stc, readU8 st = .ok (c, stc) ∧ args.length = c := by
    intro fuel st args st' h
    cases fuel with
    | zero =>
        simp only [decoders, decodersZero] at h
        exact absurd h (throwE_ne_ok _ _ _)
    | succ g =>
        simp only [decoders, mkStep] at h
        rw [M.bind_ok_iff] at h
        obtain ⟨c, stc, hc, hloop⟩ := h
        exact ⟨c, stc, hc, exprLoop_length g c stc args st' hloop⟩
  constructor
  · intro fuel st st1 stF r t hr hmem h
    rw [hstep fuel st st1 t hr hmem] at h
    rw [M.bind_ok_iff] at h
    obtain ⟨ty, st2, hty, h⟩ := h
    rw [M.bind_ok_iff] at h
    obtain ⟨args, st3, hargs, h⟩ := h
    obtain ⟨c, stc, hc, hlen⟩ := harr fuel st2 args st3 hargs
    match args, h, hlen with
    | [a], h, hlen =>
        exact ⟨ty, st2, [a], st3, c, stc, hty, hc, hargs, hlen.symm, rfl⟩
  · intro fuel st st1 st2 st3 t ty args hr hmem hty hargs hlen
    have hty' : (decoders fuel).type st1 = .ok (ty, st2) := hty
    have hargs' : (decoders fuel).exprArray st2 = .ok (args, st3) := hargs
    rw [hstep fuel st st1 t hr hmem]
    rw [M.bind_ok_then hty', M.bind_ok_then hargs']
    match args, hlen with
    | [], _ => rfl
    | [a], hlen => exact absurd rfl hlen
    | a :: b :: rest, _ => rfl

/-- C7 witness: a Splat with a one-entry argument list decodes; the same
Splat with a zero-entry argument list is a fatal arity mismatch. -/
theorem c7_cast_family_arity_witness :
    (∃ ty st2 args st3 c stc,
      typeFn 8 { wSt [kConstructorSplat_Command, kSymbolRef_Command, 7, 0, 1,
        kVoid_Command] [] with ip := 1 } = .ok (ty, st2) ∧
      readU8 st2 = .ok (c, stc) ∧
      expressionArrayFn 8 st2 = .ok (args, st3) ∧
      c = 1 ∧ args.length = 1) ∧
    expressionFn 9 (wSt [kConstructorSplat_Command, kSymbolRef_Command, 7, 0,
      0] []) = .error .arityMismatch := by
  constructor
  · exact c7_cast_family_arity.1 8
      (wSt [kConstructorSplat_Command, kSymbolRef_Command, 7, 0, 1,
        kVoid_Command] [])
      { wSt [kConstructorSplat_Command, kSymbolRef_Command, 7, 0, 1,
        kVoid_Command] [] with ip := 1 }
      { wSt [kConstructorSplat_Command, kSymbolRef_Command, 7, 0, 1,
        kVoid_Command] [] with ip := 6 }
      (some (Expr.splat wSymFloat none)) kConstructorSplat_Command (by rfl)
      (by decide) (by rfl)
  · exact c7_cast_family_arity.2 8
      (wSt [kConstructorSplat_Command, kSymbolRef_Command, 7, 0, 0] [])
      { wSt [kConstructorSplat_Command, kSymbolRef_Command, 7, 0, 0]
        [] with ip := 1 }
      { wSt [kConstructorSplat_Command, kSymbolRef_Command, 7, 0, 0]
        [] with ip := 4 }
      { wSt [kConstructorSplat_Command, kSymbolRef_Command, 7, 0, 0]
        [] with ip := 5 }
      kConstructorSplat_Command wSymFloat [] (by rfl) (by decide) (by rfl)
      (by rfl) (by decide)


/-! ### C4: unknown command tags and failed builtin lookups are fatal -/

/-- The command tags `Rehydrator::symbol` recognizes, in dispatch order. -/
def symbolTags : List Nat :=
  [kArrayType_Command, kFunctionDeclaration_Command, kField_Command,
   kStructType_Command, kSymbolRef_Command, kVariable_Command]

/-- The command tags `Rehydrator::statement` recognizes, in dispatch
order. -/
def statementTags : List Nat :=
  [kBlock_Command, kBreak_Command, kContinue_Command, kDiscard_Command,
   kDo_Command, kExpressionStatement_Command, kFor_Command, kIf_Command,
   kNop_Command, kReturn_Command, kSwitch_Command, kVarDeclaration_Command,
   kVoid_Command]

/-- The command tags `Rehydrator::expression` recognizes, in dispatch
order. -/
def expressionTags : List Nat :=
  [kBinary_Command, kBoolLiteral_Command, kConstructorArray_Command,
   kConstructorArrayCast_Command, kConstructorCompound_Command,
   kConstructorDiagonalMatrix_Command, kConstructorMatrixResize_Command,
   kConstructorScalarCast_Command, kConstructorSplat_Command,
   kConstructorStruct_Command, kConstructorCompoundCast_Command,
   kFieldAccess_Command, kFloatLiteral_Command, kFunctionCall_Command,
   kIndex_Command, kIntLiteral_Command, kPostfix_Command, kPrefix_Command,
   kSetting_Command, kSwizzle_Command, kTernary_Command,
   kVariableReference_Command, kVoid_Command]

/-- C4: a symbol, statement, or expression decode that reads an
unrecognized command tag aborts at once, and a builtin-name reference whose
lookup in the outermost ancestor scope fails aborts at once (both in the
possibly-builtin reference resolution and in the symbol-table visible
pass); in the `Except` model an abort yields no partial result. -/
theorem c4_fatal_violations :
    (∀ (fuel : Nat) (st st1 : St) (t : Nat),
      readU8 st = .ok (t, st1) → t ∉ symbolTags →
      symbolFn (fuel + 1) st = .error .unknownSymbolCmd) ∧
    (∀ (fuel : Nat) (st st1 : St) (t : Nat),
      readU8 st = .ok (t, st1) → t ∉ statementTags →
      statementFn (fuel + 1) st = .error .unknownStatementCmd) ∧
    (∀ (fuel : Nat) (st st1 : St) (t : Nat),
      readU8 st = .ok (t, st1) → t ∉ expressionTags →
      expressionFn (fuel + 1) st = .error .unknownExpressionCmd) ∧
    (∀ (st st1 st2 : St) (name : String),
      readU16 st = .ok (kBuiltin_Symbol, st1) →
      readString st1 = .ok (name, st2) →
      rootLookup st2.table name = none →
      possiblyBuiltinSymbolRef st = .error .builtinLookupFailed) ∧
    (∀ (fuel n : Nat) (ownedSymbols : List Symbol) (st st1 st2 : St)
      (name : String),
      readU16 st = .ok (kBuiltin_Symbol, st1) →
      readString st1 = .ok (name, st2) →
      rootLookup st2.table name = none →
      visLoopFn (fuel + 1) ownedSymbols (n + 1) st =
        .error .builtinLookupFailed) := by
  refine ⟨?_, ?_, ?_, ?_, ?_⟩
  · intro fuel st st1 t hr hmem
    simp only [symbolTags, List.mem_cons, List.not_mem_nil, or_false,
      not_or] at hmem
    obtain ⟨h1, h2, h3, h4, h5, h6⟩ := hmem
    simp only [symbolFn, decoders, mkStep]
    rw [M.bind_ok_then hr]
    rw [if_neg h1, if_neg h2, if_neg h3, if_neg h4, if_neg h5, if_neg h6]
    rfl
  · intro fuel st st1 t hr hmem
    simp only [statementTags, List.mem_cons, List.not_mem_nil, or_false,
      not_or] at hmem
    obtain ⟨h1, h2, h3, h4, h5, h6, h7, h8, h9, h10, h11, h12, h13⟩ := hmem
    simp only [statementFn, decoders, mkStep]
    rw [M.bind_ok_then hr]
    rw [if_neg h1, if_neg h2, if_neg h3, if_neg h4, if_neg h5, if_neg h6,
      if_neg h7, if_neg h8, if_neg h9, if_neg h10, if_neg h11, if_neg h12,
      if_neg h13]
    rfl
  · intro fuel st st1 t hr hmem
    simp only [expressionTags, List.mem_cons, List.not_mem_nil, or_false,
      not_or] at hmem
    obtain ⟨h1, h2, h3, h4, h5, h6, h7, h8, h9, h10, h11, h12, h13, h14,
      h15, h16, h17, h18, h19, h20, h21, h22, h23⟩ := hmem
    simp only [expressionFn, decoders, mkStep]
    rw [M.bind_ok_then hr]
    rw [if_neg h1, if_neg h2, if_neg h3, if_neg h4, if_neg h5, if_neg h6,
      if_neg h7, if_neg h8, if_neg h9, if_neg h10, if_neg h11, if_neg h12,
      if_neg h13, if_neg h14, if_neg h15, if_neg h16, if_neg h17,
      if_neg h18, if_neg h19, if_neg h20, if_neg h21, if_neg h22,
      if_neg h23]
    rfl
  · intro st st1 st2 name hr16 hstr hnone
    unfold possiblyBuiltinSymbolRef
    rw [M.bind_ok_then hr16, if_pos rfl, M.bind_ok_then hstr,
      M.bind_ok_then (show getTableRaw st2 = .ok (st2.table, st2) from rfl)]
    simp only [hnone]
    rfl
  · intro fuel n ownedSymbols st st1 st2 name hr16 hstr hnone
    simp only [visLoopFn, decoders, mkStep]
    rw [M.bind_ok_then hr16]
    rw [if_neg (fun hc => hc rfl)]
    rw [M.bind_ok_then hstr,
      M.bind_ok_then (show getTableRaw st2 = .ok (st2.table, st2) from rfl)]
    simp only [hnone]
    rfl

/-- C4 witness: concrete unknown tags abort the three decoders, and a
builtin-name reference to an unknown name aborts both resolution sites. -/
theorem c4_fatal_violations_witness :
    symbolFn 9 (wSt [77] []) = .error .unknownSymbolCmd ∧
    statementFn 9 (wSt [77] []) = .error .unknownStatementCmd ∧
    expressionFn 9 (wSt [77] []) = .error .unknownExpressionCmd ∧
    possiblyBuiltinSymbolRef (wSt [255, 255] ["nope"]) =
      .error .builtinLookupFailed ∧
    visLoopFn 9 [] 1 (wSt [255, 255] ["nope"]) =
      .error .builtinLookupFailed := by
  refine ⟨?_, ?_, ?_, ?_, ?_⟩
  · exact c4_fatal_violations.1 8 (wSt [77] [])
      { wSt [77] [] with ip := 1 } 77 (by rfl) (by decide)
  · exact c4_fatal_violations.2.1 8 (wSt [77] [])
      { wSt [77] [] with ip := 1 } 77 (by rfl) (by decide)
  · exact c4_fatal_violations.2.2.1 8 (wSt [77] [])
      { wSt [77] [] with ip := 1 } 77 (by rfl) (by decide)
  · exact c4_fatal_violations.2.2.2.1 (wSt [255, 255] ["nope"])
      { wSt [255, 255] ["nope"] with ip := 2 }
      { wSt [255, 255] ["nope"] with ip := 2, strs := [] } "nope" (by rfl)
      (by rfl) (by rfl)
  · exact c4_fatal_violations.2.2.2.2 8 0 [] (wSt [255, 255] ["nope"])
      { wSt [255, 255] ["nope"] with ip := 2 }
      { wSt [255, 255] ["nope"] with ip := 2, strs := [] } "nope" (by rfl)
      (by rfl) (by rfl)


/-! ### Table-shape preservation across the decoders

Every decoder except the symbol-table builder itself leaves the parent
chain and the head scope's builtin flag and name bindings untouched: a
symbol decode may only grow the current scope's owned arena (and the
session-wide id table), and scope-bearing statements restore the chain on
exit. -/

/-- The observable scope shape preserved by symbol/statement/expression
decodes: the parent chain, and the head frame's builtin flag and visible
bindings. -/
def TQ (s s' : St) : Prop :=
  s'.table.tail = s.table.tail ∧
  s'.table.head?.map (fun f => (f.builtin, f.entries)) =
    s.table.head?.map (fun f => (f.builtin, f.entries))

/-- `TQ` is reflexive. -/
theorem TQ.refl (s : St) : TQ s s :=
  ⟨rfl, rfl⟩

/-- `TQ` is transitive. -/
theorem TQ.trans {s1 s2 s3 : St} (h1 : TQ s1 s2) (h2 : TQ s2 s3) :
    TQ s1 s3 :=
  ⟨h2.1.trans h1.1, h2.2.trans h1.2⟩

/-- `TQ` holds whenever the chain is unchanged. -/
theorem TQ.of_table_eq {s s' : St} (h : s'.table = s.table) : TQ s s' := by
  constructor <;> rw [h]

/-- A computation preserves the scope shape on success. -/
def PreservesTQ {α : Type} (m : M α) : Prop :=
  ∀ s a s', m s = .ok (a, s') → TQ s s'

/-- Binds of shape-preserving computations preserve the shape. -/
theorem preserves_bind {α β : Type} {m : M α} {f : α → M β}
    (hm : PreservesTQ m) (hf : ∀ a, PreservesTQ (f a)) :
    PreservesTQ (m >>= f) := by
  intro s b s' h
  rw [M.bind_ok_iff] at h
  obtain ⟨a, s1, h1, h2⟩ := h
  exact (hm s a s1 h1).trans (hf a s1 b s' h2)

/-- `pure` preserves the shape. -/
theorem preserves_pure {α : Type} (a : α) : PreservesTQ (pure a : M α) := by
  intro s b s' h
  rw [M.pure_ok_iff] at h
  exact TQ.of_table_eq (by rw [(Prod.mk.inj h).2])

/-- `throwE` vacuously preserves the shape. -/
theorem preserves_throwE {α : Type} (e : Err) :
    PreservesTQ (throwE e : M α) := by
  intro s b s' h
  exact absurd h (throwE_ne_ok _ _ _)

/-- A conditional of shape-preserving computations preserves the shape. -/
theorem preserves_ite {α : Type} (c : Prop) [Decidable c] {m1 m2 : M α}
    (h1 : PreservesTQ m1) (h2 : PreservesTQ m2) :
    PreservesTQ (if c then m1 else m2) := by
  by_cases hc : c
  · rw [if_pos hc]; exact h1
  · rw [if_neg hc]; exact h2

/-- State operations that do not touch the symbol table preserve the
shape. -/
theorem preserves_of_table_fixed {α : Type} {m : M α}
    (hm : ∀ s a s', m s = .ok (a, s') → s'.table = s.table) :
    PreservesTQ m :=
  fun s a s' h => TQ.of_table_eq (hm s a s' h)

/-- `readU8` preserves the shape. -/
theorem preserves_readU8 : PreservesTQ readU8 :=
  preserves_of_table_fixed fun s a s' h => by rw [readU8_state h]

/-- `readU16` preserves the shape. -/
theorem preserves_readU16 : PreservesTQ readU16 := by
  unfold readU16
  exact preserves_bind preserves_readU8 fun _ =>
    preserves_bind preserves_readU8 fun _ => preserves_pure _

/-- `readU32` preserves the shape. -/
theorem preserves_readU32 : PreservesTQ readU32 := by
  unfold readU32
  exact preserves_bind preserves_readU8 fun _ =>
    preserves_bind preserves_readU8 fun _ =>
      preserves_bind preserves_readU8 fun _ =>
        preserves_bind preserves_readU8 fun _ => preserves_pure _

/-- `readS8` preserves the shape. -/
theorem preserves_readS8 : PreservesTQ readS8 := by
  unfold readS8
  exact preserves_bind preserves_readU8 fun _ => preserves_pure _

/-- `readS16` preserves the shape. -/
theorem preserves_readS16 : PreservesTQ readS16 := by
  unfold readS16
  exact preserves_bind preserves_readU16 fun _ => preserves_pure _

/-- `readS32` preserves the shape. -/
theorem preserves_readS32 : PreservesTQ readS32 := by
  unfold readS32
  exact preserves_bind preserves_readU32 fun _ => preserves_pure _

/-- `readString` preserves the shape. -/
theorem preserves_readString : PreservesTQ readString :=
  preserves_of_table_fixed fun s a s' h => by
    obtain ⟨_, h2⟩ := readString_ok h
    rw [h2]

/-- `getState` preserves the shape. -/
theorem preserves_getState : PreservesTQ getState :=
  preserves_of_table_fixed fun s a s' h => by
    rw [getState_ok_iff] at h
    rw [(Prod.mk.inj h).2]

/-- `getTableRaw` preserves the shape. -/
theorem preserves_getTableRaw : PreservesTQ getTableRaw :=
  preserves_of_table_fixed fun s a s' h => by
    rw [getTableRaw_ok_iff] at h
    rw [(Prod.mk.inj h).2]

/-- `addSymbol` preserves the shape (only the id table changes). -/
theorem preserves_addSymbol (id : Nat) (sym : Symbol) :
    PreservesTQ (addSymbol id sym) :=
  preserves_of_table_fixed fun s a s' h => by
    unfold addSymbol at h
    rw [modifyState_ok_iff] at h
    rw [(Prod.mk.inj h).2]

/-- `modifiersPoolAdd` preserves the shape. -/
theorem preserves_modifiersPoolAdd (m : Modifiers) :
    PreservesTQ (modifiersPoolAdd m) := by
  unfold modifiersPoolAdd
  refine preserves_bind ?_ fun _ => preserves_pure _
  exact preserves_of_table_fixed fun s a s' h => by
    rw [modifyState_ok_iff] at h
    rw [(Prod.mk.inj h).2]

/-- `tableIsBuiltin` preserves the shape. -/
theorem preserves_tableIsBuiltin : PreservesTQ tableIsBuiltin :=
  preserves_of_table_fixed fun s a s' h => by
    rw [(tableIsBuiltin_ok h).1]

/-- `takeOwnershipOfSymbol` preserves the shape: only the owned arena of
the head frame grows. -/
theorem preserves_takeOwnershipOfSymbol (sym : Symbol) :
    PreservesTQ (takeOwnershipOfSymbol sym) := by
  intro s a s' h
  unfold takeOwnershipOfSymbol at h
  rw [M.bind_ok_then (show getTableRaw s = .ok (s.table, s) from rfl)] at h
  cases htab : s.table with
  | nil => rw [htab] at h; exact absurd h (throwE_ne_ok _ _ _)
  | cons f rest =>
      rw [htab] at h
      simp only [setTableRaw_ok_iff, Prod.mk.injEq] at h
      obtain ⟨-, rfl⟩ := h
      constructor <;> simp [htab]

/-- `takeOwnershipOfString` preserves the shape. -/
theorem preserves_takeOwnershipOfString (str : String) :
    PreservesTQ (takeOwnershipOfString str) := by
  intro s a s' h
  unfold takeOwnershipOfString at h
  rw [M.bind_ok_then (show getTableRaw s = .ok (s.table, s) from rfl)] at h
  cases htab : s.table with
  | nil => rw [htab] at h; exact absurd h (throwE_ne_ok _ _ _)
  | cons f rest =>
      rw [htab] at h
      simp only [setTableRaw_ok_iff, Prod.mk.injEq] at h
      obtain ⟨-, rfl⟩ := h
      constructor <;> simp [htab]

/-- `possiblyBuiltinSymbolRef` preserves the shape (read-only resolution). -/
theorem preserves_possiblyBuiltinSymbolRef :
    PreservesTQ possiblyBuiltinSymbolRef := by
  unfold possiblyBuiltinSymbolRef
  refine preserves_bind preserves_readU16 fun tok => ?_
  refine preserves_ite _ ?_ ?_
  · refine preserves_bind preserves_readString fun name => ?_
    refine preserves_bind preserves_getTableRaw fun t => ?_
    cases rootLookup t name with
    | none => exact preserves_throwE _
    | some s => exact preserves_pure _
  · refine preserves_bind preserves_getState fun st => ?_
    cases st.ids.lookup tok with
    | none => exact preserves_throwE _
    | some s => exact preserves_pure _

/-- `symbolRefAny` preserves the shape. -/
theorem preserves_symbolRefAny : PreservesTQ symbolRefAny := by
  unfold symbolRefAny
  refine preserves_bind preserves_readU16 fun id => ?_
  refine preserves_bind preserves_getState fun st => ?_
  cases st.ids.lookup id with
  | none => exact preserves_throwE _
  | some s => exact preserves_pure _

/-- `asVariable` preserves the shape. -/
theorem preserves_asVariable (s : Symbol) : PreservesTQ (asVariable s) := by
  unfold asVariable
  cases s <;> first | exact preserves_pure _ | exact preserves_throwE _

/-- `asFunctionDecl` preserves the shape. -/
theorem preserves_asFunctionDecl (s : Symbol) :
    PreservesTQ (asFunctionDecl s) := by
  unfold asFunctionDecl
  cases s <;> first | exact preserves_pure _ | exact preserves_throwE _

/-- `layoutFn` preserves the shape. -/
theorem preserves_layoutFn : PreservesTQ layoutFn := by
  unfold layoutFn
  refine preserves_bind preserves_readU8 fun cmd => ?_
  refine preserves_ite _ ?_ (preserves_ite _ ?_ (preserves_ite _ ?_ ?_))
  · exact preserves_bind preserves_readS16 fun _ => preserves_pure _
  · exact preserves_pure _
  · exact preserves_bind preserves_readU32 fun _ =>
      preserves_bind preserves_readS8 fun _ =>
      preserves_bind preserves_readS16 fun _ =>
      preserves_bind preserves_readS16 fun _ =>
      preserves_bind preserves_readS8 fun _ =>
      preserves_bind preserves_readS8 fun _ =>
      preserves_bind preserves_readS16 fun _ =>
      preserves_bind preserves_readS8 fun _ => preserves_pure _
  · exact preserves_throwE _

/-- `modifiersFn` preserves the shape. -/
theorem preserves_modifiersFn : PreservesTQ modifiersFn := by
  unfold modifiersFn
  refine preserves_bind preserves_readU8 fun cmd => ?_
  refine preserves_ite _ ?_ (preserves_ite _ ?_ (preserves_ite _ ?_ ?_))
  · exact preserves_pure _
  · exact preserves_bind preserves_layoutFn fun _ =>
      preserves_bind preserves_readU8 fun _ => preserves_pure _
  · exact preserves_bind preserves_layoutFn fun _ =>
      preserves_bind preserves_readS32 fun _ => preserves_pure _
  · exact preserves_throwE _

/-- `readBytesLoop` preserves the shape. -/
theorem preserves_readBytesLoop : ∀ n, PreservesTQ (readBytesLoop n) := by
  intro n
  induction n with
  | zero => exact preserves_pure _
  | succ k ih =>
      exact preserves_bind preserves_readU8 fun _ =>
        preserves_bind ih fun _ => preserves_pure _

/-- `withScope` preserves the shape: the ambient scope is restored. -/
theorem preserves_withScope {α : Type} (mt : M (Option SymbolTable))
    (body : M α) : PreservesTQ (withScope mt body) :=
  fun s a s' h => TQ.of_table_eq (withScope_ok_table mt body h)


/-- Eliminator for `PreservesTQ` (stated before the predicate is made
irreducible). -/
theorem PreservesTQ.runTQ {α : Type} {m : M α} (hm : PreservesTQ m) {s : St}
    {a : α} {s' : St} (h : m s = .ok (a, s')) : TQ s s' :=
  hm s a s' h

attribute [irreducible] PreservesTQ

set_option maxRecDepth 16384 in
set_option maxHeartbeats 4000000 in
/-- Every decoder of the bundle — symbols, types, statements, expressions,
elements, and their counted loops — preserves the scope shape `TQ`: only
the symbol-table builder itself pushes a scope, and every scope-bearing
statement restores the ambient scope on exit. -/
theorem decoders_preserveTQ : ∀ fuel : Nat,
    PreservesTQ (decoders fuel).symbol ∧
    PreservesTQ (decoders fuel).type ∧
    (∀ n, PreservesTQ ((decoders fuel).paramLoop n)) ∧
    (∀ n, PreservesTQ ((decoders fuel).fieldLoop n)) ∧
    (∀ n, PreservesTQ ((decoders fuel).ownedLoop n)) ∧
    PreservesTQ (decoders fuel).statement ∧
    (∀ n, PreservesTQ ((decoders fuel).stmtLoop n)) ∧
    (∀ n, PreservesTQ ((decoders fuel).caseLoop n)) ∧
    PreservesTQ (decoders fuel).expression ∧
    (∀ n, PreservesTQ ((decoders fuel).exprLoop n)) ∧
    PreservesTQ (decoders fuel).exprArray ∧
    PreservesTQ (decoders fuel).element ∧
    PreservesTQ (decoders fuel).elemLoop := by
  intro fuel
  induction fuel with
  | zero =>
      refine ⟨?_, ?_, ?_, ?_, ?_, ?_, ?_, ?_, ?_, ?_, ?_, ?_, ?_⟩ <;>
        simp only [decoders, decodersZero] <;>
        first
          | exact preserves_throwE _
          | (intro n; exact preserves_throwE _)
  | succ f ih =>
      obtain ⟨ihSym, ihType, ihParam, ihField, ihOwned, ihStmt, ihStmtLoop,
        ihCase, ihExpr, ihExprLoop, ihExprArray, ihElem, ihElemLoop⟩ := ih
      refine ⟨?_, ?_, ?_, ?_, ?_, ?_, ?_, ?_, ?_, ?_, ?_, ?_, ?_⟩ <;>
        simp only [decoders, mkStep] <;>
        repeat
          first
          | exact ihSym
          | exact ihType
          | exact ihParam _
          | exact ihField _
          | exact ihOwned _
          | exact ihStmt
          | exact ihStmtLoop _
          | exact ihCase _
          | exact ihExpr
          | exact ihExprLoop _
          | exact ihExprArray
          | exact ihElem
          | exact ihElemLoop
          | exact preserves_pure _
          | exact preserves_throwE _
          | exact preserves_readU8
          | exact preserves_readU16
          | exact preserves_readU32
          | exact preserves_readS8
          | exact preserves_readS16
          | exact preserves_readS32
          | exact preserves_readString
          | exact preserves_getState
          | exact preserves_getTableRaw
          | exact preserves_tableIsBuiltin
          | exact preserves_takeOwnershipOfSymbol _
          | exact preserves_takeOwnershipOfString _
          | exact preserves_addSymbol _ _
          | exact preserves_modifiersPoolAdd _
          | exact preserves_possiblyBuiltinSymbolRef
          | exact preserves_symbolRefAny
          | exact preserves_asVariable _
          | exact preserves_asFunctionDecl _
          | exact preserves_modifiersFn
          | exact preserves_layoutFn
          | exact preserves_readBytesLoop _
          | exact preserves_withScope _ _
          | apply preserves_ite
          | apply preserves_bind
          | intro x
          | split


/-! ### A pure view of the visible-bindings pass -/

/-- One decoded visible-binding reference: either a local index into the
owned-symbol array, or the builtin sentinel followed by a name. -/
inductive VisRef where
  | ownedIdx (i : Nat)
  | builtinName (s : String)

/-- Pure decoding of `n` visible-binding references from the wire: each
entry is a 16-bit token; the builtin sentinel additionally consumes the
next string of the blob. -/
def decodeVisRefs (buf : List Nat) (ip : Nat) (strs : List String) :
    Nat → Option (List VisRef × Nat × List String)
  | 0 => some ([], ip, strs)
  | n + 1 =>
    match u16At buf ip with
    | none => none
    | some tok =>
      if tok = kBuiltin_Symbol then
        match strs with
        | [] => none
        | s :: rest =>
          match decodeVisRefs buf (ip + 2) rest n with
          | none => none
          | some (refs, ipE, strsE) => some (.builtinName s :: refs, ipE, strsE)
      else
        match decodeVisRefs buf (ip + 2) strs n with
        | none => none
        | some (refs, ipE, strsE) => some (.ownedIdx tok :: refs, ipE, strsE)

/-- The symbol a visible-binding reference denotes, following the spec: a
local index selects the owned symbol at that position, a builtin name is
looked up in the outermost ancestor of the parent chain `t`. -/
def bindRefIn (arr : List Symbol) (t : SymbolTable) : VisRef → Option Symbol
  | .ownedIdx i => arr.get? i
  | .builtinName n => rootLookup t n

/-- Resolve a whole reference list; `none` when any reference fails. -/
def bindAll (arr : List Symbol) (t : SymbolTable) :
    List VisRef → Option (List Symbol)
  | [] => some []
  | r :: rs =>
    match bindRefIn arr t r, bindAll arr t rs with
    | some s, some ss => some (s :: ss)
    | _, _ => none

/-- Prepending any head scope leaves the outermost-ancestor lookup
unchanged when the rest of the chain is non-empty. -/
theorem rootLookup_cons_of_ne_nil {f : ScopeFrame} {rest : List ScopeFrame}
    (h : rest ≠ []) (name : String) :
    rootLookup (f :: rest) name = rootLookup rest name := by
  cases rest with
  | nil => exact absurd rfl h
  | cons y t => simp [rootLookup, List.getLast?_cons_cons]

/-- Running `addWithoutOwnership` on a non-null chain: the binding is
appended to the head frame's entries and nothing else changes. -/
theorem addWithoutOwnership_run {s : St} {f : ScopeFrame}
    {rest : List ScopeFrame} (htab : s.table = f :: rest) (sym : Symbol) :
    addWithoutOwnership sym s = .ok ((),
      { s with table :=
          { f with entries := f.entries ++ [(sym.symName, sym)] } :: rest }) := by
  unfold addWithoutOwnership
  rw [M.bind_ok_then (show getTableRaw s = .ok (s.table, s) from rfl)]
  rw [htab]
  rfl

/-- The visible pass agrees with its pure view: a successful run decodes
exactly `n` reference tokens, resolves each against the owned array or
the root of the parent chain without taking ownership, and appends the
resolved bindings, in order, to the new scope's entries; the parent chain
and the owned arena are untouched. -/
theorem visLoop_spec : ∀ (n fuel : Nat) (arr : List Symbol) (st : St)
    (u : Unit) (st' : St) (f : ScopeFrame) (rest : List ScopeFrame),
    (decoders fuel).visLoop arr n st = .ok (u, st') →
    st.table = f :: rest → rest ≠ [] →
    ∃ refs bound,
      decodeVisRefs st.buf st.ip st.strs n = some (refs, st'.ip, st'.strs) ∧
      bindAll arr rest refs = some bound ∧
      st'.table =
        { f with entries :=
            f.entries ++ bound.map (fun s => (s.symName, s)) } :: rest ∧
      st'.buf = st.buf := by
  intro n
  induction n with
  | zero =>
      intro fuel arr st u st' f rest h htab hrest
      cases fuel with
      | zero =>
          simp only [decoders, decodersZero] at h
          exact absurd h (throwE_ne_ok _ _ _)
      | succ g =>
          simp only [decoders, mkStep] at h
          rw [M.pure_ok_iff] at h
          obtain ⟨-, rfl⟩ := Prod.mk.inj h
          refine ⟨[], [], rfl, rfl, ?_, rfl⟩
          rw [htab]
          simp
  | succ k ih =>
      intro fuel arr st u st' f rest h htab hrest
      cases fuel with
      | zero =>
          simp only [decoders, decodersZero] at h
          exact absurd h (throwE_ne_ok _ _ _)
      | succ g =>
          simp only [decoders, mkStep] at h
          rw [M.bind_ok_iff] at h
          obtain ⟨tok, s1, htok, h⟩ := h
          obtain ⟨hu16, rfl⟩ := readU16_ok htok
          by_cases hsent : tok = kBuiltin_Symbol
          · rw [if_neg (not_not_intro hsent)] at h
            rw [M.bind_ok_iff] at h
            obtain ⟨name, s2, hname, h⟩ := h
            obtain ⟨hcons, hs2⟩ := readString_ok hname
            rw [M.bind_ok_iff] at h
            obtain ⟨tcur, s3, hT, h⟩ := h
            rw [getTableRaw_ok_iff] at hT
            obtain ⟨h1, h2⟩ := Prod.mk.inj hT
            rw [h1, h2] at h
            have hs2tab : s2.table = f :: rest := by rw [hs2]; exact htab
            cases hlook : rootLookup s2.table name with
            | none =>
                rw [hlook] at h
                rw [M.bind_ok_iff] at h
                obtain ⟨u0, s4, habs, -⟩ := h
                exact absurd habs (throwE_ne_ok _ _ _)
            | some sym =>
                rw [hlook] at h
                rw [M.bind_ok_iff] at h
                obtain ⟨u0, s4, hadd, h⟩ := h
                rw [addWithoutOwnership_run hs2tab sym] at hadd
                obtain ⟨-, rfl⟩ := Prod.mk.inj (Except.ok.inj hadd)
                obtain ⟨refs, bound, hdec, hbind, htabE, hbufE⟩ :=
                  ih g arr _ u st' _ rest h (by rfl) hrest
                refine ⟨.builtinName name :: refs, sym :: bound, ?_, ?_, ?_, ?_⟩
                · have hstrs1 : st.strs = name :: s2.strs := hcons
                  have hdec2 : decodeVisRefs st.buf (st.ip + 2) s2.strs k =
                      some (refs, st'.ip, st'.strs) := by
                    have hb : s2.buf = st.buf := by rw [hs2]
                    have hi : s2.ip = st.ip + 2 := by rw [hs2]
                    rw [← hb, ← hi]
                    exact hdec
                  simp [decodeVisRefs, hu16, hsent, hstrs1, hdec2]
                · simp only [bindAll, bindRefIn]
                  have : rootLookup rest name = some sym := by
                    rw [← rootLookup_cons_of_ne_nil hrest name, ← hs2tab, hlook]
                  rw [this, hbind]
                · rw [htabE]
                  simp
                · rw [hbufE, hs2]
          · rw [if_pos hsent] at h
            cases hget : arr.get? tok with
            | none =>
                rw [hget] at h
                rw [M.bind_ok_iff] at h
                obtain ⟨u0, s4, habs, -⟩ := h
                exact absurd habs (throwE_ne_ok _ _ _)
            | some sym =>
                rw [hget] at h
                rw [M.bind_ok_iff] at h
                obtain ⟨u0, s4, hstep, h⟩ := h
                have hs1tab : ({ st with ip := st.ip + 2 } : St).table =
                    f :: rest := htab
                rw [addWithoutOwnership_run hs1tab sym] at hstep
                obtain ⟨-, rfl⟩ := Prod.mk.inj (Except.ok.inj hstep)
                obtain ⟨refs, bound, hdec, hbind, htabE, hbufE⟩ :=
                  ih g arr _ u st' _ rest h (by rfl) hrest
                refine ⟨.ownedIdx tok :: refs, sym :: bound, ?_, ?_, ?_, ?_⟩
                · have hdec2 : decodeVisRefs st.buf (st.ip + 2) st.strs k =
                      some (refs, st'.ip, st'.strs) := hdec
                  simp [decodeVisRefs, hu16, hsent, hdec2]
                · simp only [bindAll, bindRefIn]
                  rw [hget, hbind]
                · rw [htabE]
                  simp
                · exact hbufE

/-- A successful owned pass decodes exactly the demanded number of symbols
into the local array. -/
theorem ownedLoop_length : ∀ (fuel n : Nat) (st : St)
    (syms : List Symbol) (st' : St),
    (decoders fuel).ownedLoop n st = .ok (syms, st') → syms.length = n := by
  intro fuel
  induction fuel with
  | zero =>
      intro n st syms st' h
      simp only [decoders, decodersZero] at h
      exact absurd h (throwE_ne_ok _ _ _)
  | succ f ih =>
      intro n st syms st' h
      cases n with
      | zero =>
          simp only [decoders, mkStep] at h
          rw [M.pure_ok_iff] at h
          obtain ⟨rfl, rfl⟩ := Prod.mk.inj h
          rfl
      | succ k =>
          simp only [decoders, mkStep] at h
          rw [M.bind_ok_iff] at h
          obtain ⟨s0, s1, hs, h⟩ := h
          rw [M.bind_ok_iff] at h
          obtain ⟨rest, s2, hrest, h⟩ := h
          rw [M.pure_ok_iff] at h
          obtain ⟨rfl, rfl⟩ := Prod.mk.inj h
          simp [ih k _ _ _ hrest]

/-! ### C1: the symbol-table decode protocol -/

/-- C1: a symbol-table decode whose first tag is not Void reads a builtin
flag, reads an owned count and decodes exactly that many symbols into a
local array inside a freshly pushed child scope whose parent is the current
scope, then reads a visible count and for each entry reads a reference
token, binding either the builtin resolved by name from the outermost
ancestor or the owned symbol at the token's local index — in both cases
without adding to the scope's owned arena — and returns the new scope,
installed as current; a Void tag produces no new scope. -/
theorem c1_symbol_table_decode (fuel : Nat) (st st1 stF : St)
    (r : Option SymbolTable) (t : Nat) (f0 : ScopeFrame)
    (rest0 : List ScopeFrame)
    (hr : readU8 st = .ok (t, st1))
    (htab : st.table = f0 :: rest0)
    (h : symbolTableFn (fuel + 1) st = .ok (r, stF)) :
    (t = kVoid_Command → r = none ∧ stF = st1 ∧ stF.table = st.table) ∧
    (t ≠ kVoid_Command → t = kSymbolTable_Command ∧
      ∃ bflag stA ownedCount stB ownedSyms stC visCount stD refs bound fNew,
        readU8 st1 = .ok (bflag, stA) ∧
        readU16 stA = .ok (ownedCount, stB) ∧
        ownedLoopFn fuel ownedCount
          { stB with table :=
              ⟨bflag ≠ 0, [], [], []⟩ :: st.table } = .ok (ownedSyms, stC) ∧
        ownedSyms.length = ownedCount ∧
        readU16 stC = .ok (visCount, stD) ∧
        visLoopFn fuel ownedSyms visCount stD = .ok ((), stF) ∧
        decodeVisRefs stD.buf stD.ip stD.strs visCount =
          some (refs, stF.ip, stF.strs) ∧
        bindAll ownedSyms st.table refs = some bound ∧
        r = some stF.table ∧
        stF.table = fNew :: st.table ∧
        fNew.builtin = decide (bflag ≠ 0) ∧
        fNew.entries = bound.map (fun s => (s.symName, s)) ∧
        stD.table.head?.map ScopeFrame.owned = some fNew.owned) := by
  simp only [symbolTableFn, decoders, mkStep] at h
  rw [M.bind_ok_then hr] at h
  constructor
  · rintro rfl
    rw [if_pos rfl] at h
    rw [M.pure_ok_iff] at h
    obtain ⟨h1, h2⟩ := Prod.mk.inj h
    refine ⟨h1, h2, ?_⟩
    rw [h2, readU8_state hr]
  · intro hne
    rw [if_neg hne] at h
    by_cases hsym : t = kSymbolTable_Command
    · rw [if_pos hsym] at h
      rw [M.bind_ok_iff] at h
      obtain ⟨bflag, stA, hbflag, h⟩ := h
      rw [M.bind_ok_iff] at h
      obtain ⟨ownedCount, stB, hoc, h⟩ := h
      rw [M.bind_ok_iff] at h
      obtain ⟨u0, stP, hpush, h⟩ := h
      have hstP : stP =
          { stB with table := ⟨bflag ≠ 0, [], [], []⟩ :: stB.table } := by
        unfold pushFrame at hpush
        rw [modifyState_ok_iff] at hpush
        exact (Prod.mk.inj hpush).2
      rw [M.bind_ok_iff] at h
      obtain ⟨ownedSyms, stC, hOwn, h⟩ := h
      rw [M.bind_ok_iff] at h
      obtain ⟨visCount, stD, hvc, h⟩ := h
      rw [M.bind_ok_iff] at h
      obtain ⟨u1, stE, hVis, h⟩ := h
      rw [M.bind_ok_iff] at h
      obtain ⟨tcur, stF2, hT, h⟩ := h
      rw [getTableRaw_ok_iff] at hT
      obtain ⟨hT1, hT2⟩ := Prod.mk.inj hT
      rw [M.pure_ok_iff] at h
      obtain ⟨hr1, hr2⟩ := Prod.mk.inj h
      have hstA : stA = { st1 with ip := st1.ip + 1 } := readU8_state hbflag
      have hstB : stB = { stA with ip := stA.ip + 2 } := (readU16_ok hoc).2
      have hBtab : stB.table = st.table := by
        rw [hstB, hstA, readU8_state hr]
      have hTQ : TQ stP stC :=
        ((decoders_preserveTQ fuel).2.2.2.2.1 ownedCount).runTQ hOwn
      have hCtail : stC.table.tail = st.table := by
        rw [hTQ.1, hstP]
        exact hBtab
      have hChead : stC.table.head?.map (fun f => (f.builtin, f.entries)) =
          some (decide (bflag ≠ 0), ([] : List (String × Symbol))) := by
        rw [hTQ.2, hstP]
        rfl
      obtain ⟨fMid, hCeq, hfb, hfe⟩ : ∃ fMid, stC.table = fMid :: st.table ∧
          fMid.builtin = decide (bflag ≠ 0) ∧ fMid.entries = [] := by
        cases hC : stC.table with
        | nil => rw [hC] at hChead; exact absurd hChead (by simp)
        | cons g tl =>
            rw [hC] at hChead hCtail
            simp only [List.head?_cons, Option.map_some'] at hChead
            simp only [List.tail_cons] at hCtail
            obtain ⟨hg1, hg2⟩ := Prod.mk.inj (Option.some.inj hChead)
            exact ⟨g, by rw [hCtail], hg1, hg2⟩
      have hstD : stD = { stC with ip := stC.ip + 2 } := (readU16_ok hvc).2
      have hDtab : stD.table = fMid :: st.table := by
        rw [hstD]
        exact hCeq
      obtain ⟨refs, bound, hdec, hbind, hEtab, hEbuf⟩ :=
        visLoop_spec visCount fuel ownedSyms stD u1 stE fMid st.table hVis
          hDtab (by rw [htab]; exact List.cons_ne_nil _ _)
      have hFE : stF = stE := hr2.trans hT2
      cases u1
      refine ⟨hsym, bflag, stA, ownedCount, stB, ownedSyms, stC, visCount,
        stD, refs, bound,
        { fMid with entries := bound.map (fun s => (s.symName, s)) },
        hbflag, hoc, ?_, ownedLoop_length fuel ownedCount stP ownedSyms stC
          hOwn, hvc, ?_, ?_, hbind, ?_, ?_, hfb, rfl, ?_⟩
      · rw [show ({ stB with table :=
            ⟨bflag ≠ 0, [], [], []⟩ :: st.table } : St) = stP by
          rw [hstP, hBtab]]
        exact hOwn
      · rw [hFE]
        exact hVis
      · rw [hFE]
        exact hdec
      · rw [hr1, hT1, hFE]
      · rw [hFE, hEtab, hfe]
        simp
      · rw [hDtab]
        simp
    · rw [if_neg hsym] at h
      exact absurd h (throwE_ne_ok _ _ _)


/-- A concrete symbol-table wire image: non-builtin scope, one owned symbol
(a reference to registered id 7), two visible entries (owned index 0 and
the builtin sentinel naming "uint"). -/
def cW1 : St :=
  wSt [kSymbolTable_Command, 0, 1, 0, kSymbolRef_Command, 7, 0, 2, 0, 0, 0,
    255, 255] ["uint"]

/-- The new scope after decoding `cW1`: non-builtin, no owned storage, the
two ordered bindings. -/
def fNewW : ScopeFrame :=
  ⟨false, [], [], [("float", wSymFloat), ("uint", wSymUInt)]⟩

/-- The state after decoding `cW1` (see `fNewW`). -/
def cW1F : St :=
  { cW1 with ip := 13, strs := [], table := [fNewW, wRoot] }

/-- C1 witness: the concrete image decodes through the full protocol. -/
theorem c1_symbol_table_decode_witness :
    kSymbolTable_Command = kSymbolTable_Command ∧
    ∃ bflag stA ownedCount stB ownedSyms stC visCount stD refs bound fNew,
      readU8 { cW1 with ip := 1 } = .ok (bflag, stA) ∧
      readU16 stA = .ok (ownedCount, stB) ∧
      ownedLoopFn 8 ownedCount
        { stB with table := ⟨bflag ≠ 0, [], [], []⟩ :: cW1.table } =
        .ok (ownedSyms, stC) ∧
      ownedSyms.length = ownedCount ∧
      readU16 stC = .ok (visCount, stD) ∧
      visLoopFn 8 ownedSyms visCount stD = .ok ((), cW1F) ∧
      decodeVisRefs stD.buf stD.ip stD.strs visCount =
        some (refs, cW1F.ip, cW1F.strs) ∧
      bindAll ownedSyms cW1.table refs = some bound ∧
      some cW1F.table = some cW1F.table ∧
      cW1F.table = fNew :: cW1.table ∧
      fNew.builtin = decide (bflag ≠ 0) ∧
      fNew.entries = bound.map (fun s => (s.symName, s)) ∧
      stD.table.head?.map ScopeFrame.owned = some fNew.owned :=
  (c1_symbol_table_decode 8 cW1 { cW1 with ip := 1 } cW1F
    (some cW1F.table) kSymbolTable_Command wRoot [] (by rfl) (by rfl)
    (by rfl)).2 (by decide)


/-! ### The decoders never touch the session environment

The byte buffer, the ambient configuration pointer, the thread-local pool,
the pool counter, and the compiler's module map are read-only (or untouched)
for every decoder in the bundle; only the top-level program decode swaps
them. -/

/-- The session-environment components no bundle decoder modifies. -/
def envOf (s : St) :
    List Nat × Option Config × Option Nat × Nat × List (Nat × SymbolTable) :=
  (s.buf, s.config, s.threadPool, s.nextPool, s.modules)

/-- A computation leaves the session environment unchanged on success. -/
def PreservesEnv {α : Type} (m : M α) : Prop :=
  ∀ s a s', m s = .ok (a, s') → envOf s' = envOf s

/-- Eliminator for `PreservesEnv`. -/
theorem PreservesEnv.runEnv {α : Type} {m : M α} (hm : PreservesEnv m) {s : St}
    {a : α} {s' : St} (h : m s = .ok (a, s')) : envOf s' = envOf s :=
  hm s a s' h

/-- Binds of environment-preserving computations preserve the environment. -/
theorem epreserves_bind {α β : Type} {m : M α} {f : α → M β}
    (hm : PreservesEnv m) (hf : ∀ a, PreservesEnv (f a)) :
    PreservesEnv (m >>= f) := by
  intro s b s' h
  rw [M.bind_ok_iff] at h
  obtain ⟨a, s1, h1, h2⟩ := h
  exact (hf a s1 b s' h2).trans (hm s a s1 h1)

/-- `pure` preserves the environment. -/
theorem epreserves_pure {α : Type} (a : α) : PreservesEnv (pure a : M α) := by
  intro s b s' h
  rw [M.pure_ok_iff] at h
  rw [(Prod.mk.inj h).2]

/-- `throwE` vacuously preserves the environment. -/
theorem epreserves_throwE {α : Type} (e : Err) :
    PreservesEnv (throwE e : M α) := by
  intro s b s' h
  exact absurd h (throwE_ne_ok _ _ _)

/-- Conditionals of environment-preserving computations preserve the
environment. -/
theorem epreserves_ite {α : Type} (c : Prop) [Decidable c] {m1 m2 : M α}
    (h1 : PreservesEnv m1) (h2 : PreservesEnv m2) :
    PreservesEnv (if c then m1 else m2) := by
  by_cases hc : c
  · rw [if_pos hc]; exact h1
  · rw [if_neg hc]; exact h2

/-- `readU8` preserves the environment. -/
theorem epreserves_readU8 : PreservesEnv readU8 := by
  intro s a s' h
  rw [readU8_state h]
  rfl

/-- `readU16` preserves the environment. -/
theorem epreserves_readU16 : PreservesEnv readU16 := by
  unfold readU16
  exact epreserves_bind epreserves_readU8 fun _ =>
    epreserves_bind epreserves_readU8 fun _ => epreserves_pure _

/-- `readU32` preserves the environment. -/
theorem epreserves_readU32 : PreservesEnv readU32 := by
  unfold readU32
  exact epreserves_bind epreserves_readU8 fun _ =>
    epreserves_bind epreserves_readU8 fun _ =>
      epreserves_bind epreserves_readU8 fun _ =>
        epreserves_bind epreserves_readU8 fun _ => epreserves_pure _

/-- `readS8` preserves the environment. -/
theorem epreserves_readS8 : PreservesEnv readS8 := by
  unfold readS8
  exact epreserves_bind epreserves_readU8 fun _ => epreserves_pure _

/-- `readS16` preserves the environment. -/
theorem epreserves_readS16 : PreservesEnv readS16 := by
  unfold readS16
  exact epreserves_bind epreserves_readU16 fun _ => epreserves_pure _

/-- `readS32` preserves the environment. -/
theorem epreserves_readS32 : PreservesEnv readS32 := by
  unfold readS32
  exact epreserves_bind epreserves_readU32 fun _ => epreserves_pure _

/-- `readString` preserves the environment. -/
theorem epreserves_readString : PreservesEnv readString := by
  intro s a s' h
  rw [(readString_ok h).2]
  rfl

/-- `getState` preserves the environment. -/
theorem epreserves_getState : PreservesEnv getState := by
  intro s a s' h
  rw [getState_ok_iff] at h
  rw [(Prod.mk.inj h).2]

/-- `getTableRaw` preserves the environment. -/
theorem epreserves_getTableRaw : PreservesEnv getTableRaw := by
  intro s a s' h
  rw [getTableRaw_ok_iff] at h
  rw [(Prod.mk.inj h).2]

/-- `setTableRaw` preserves the environment. -/
theorem epreserves_setTableRaw (t : SymbolTable) :
    PreservesEnv (setTableRaw t) := by
  intro s a s' h
  rw [setTableRaw_ok_iff] at h
  rw [(Prod.mk.inj h).2]
  rfl

/-- `pushFrame` preserves the environment. -/
theorem epreserves_pushFrame (b : Bool) : PreservesEnv (pushFrame b) := by
  intro s a s' h
  unfold pushFrame at h
  rw [modifyState_ok_iff] at h
  rw [(Prod.mk.inj h).2]
  rfl

/-- `tableIsBuiltin` preserves the environment. -/
theorem epreserves_tableIsBuiltin : PreservesEnv tableIsBuiltin := by
  intro s a s' h
  rw [(tableIsBuiltin_ok h).1]

/-- `takeOwnershipOfSymbol` preserves the environment. -/
theorem epreserves_takeOwnershipOfSymbol (sym : Symbol) :
    PreservesEnv (takeOwnershipOfSymbol sym) := by
  unfold takeOwnershipOfSymbol
  refine epreserves_bind epreserves_getTableRaw fun t => ?_
  cases t with
  | nil => exact epreserves_throwE _
  | cons f rest => exact epreserves_setTableRaw _

/-- `takeOwnershipOfString` preserves the environment. -/
theorem epreserves_takeOwnershipOfString (str : String) :
    PreservesEnv (takeOwnershipOfString str) := by
  unfold takeOwnershipOfString
  refine epreserves_bind epreserves_getTableRaw fun t => ?_
  cases t with
  | nil => exact epreserves_throwE _
  | cons f rest => exact epreserves_setTableRaw _

/-- `addWithoutOwnership` preserves the environment. -/
theorem epreserves_addWithoutOwnership (sym : Symbol) :
    PreservesEnv (addWithoutOwnership sym) := by
  unfold addWithoutOwnership
  refine epreserves_bind epreserves_getTableRaw fun t => ?_
  cases t with
  | nil => exact epreserves_throwE _
  | cons f rest => exact epreserves_setTableRaw _

/-- `addSymbol` preserves the environment. -/
theorem epreserves_addSymbol (id : Nat) (sym : Symbol) :
    PreservesEnv (addSymbol id sym) := by
  intro s a s' h
  unfold addSymbol at h
  rw [modifyState_ok_iff] at h
  rw [(Prod.mk.inj h).2]
  rfl

/-- `modifiersPoolAdd` preserves the environment. -/
theorem epreserves_modifiersPoolAdd (m : Modifiers) :
    PreservesEnv (modifiersPoolAdd m) := by
  unfold modifiersPoolAdd
  refine epreserves_bind ?_ fun _ => epreserves_pure _
  intro s a s' h
  rw [modifyState_ok_iff] at h
  rw [(Prod.mk.inj h).2]
  rfl

/-- `possiblyBuiltinSymbolRef` preserves the environment. -/
theorem epreserves_possiblyBuiltinSymbolRef :
    PreservesEnv possiblyBuiltinSymbolRef := by
  unfold possiblyBuiltinSymbolRef
  refine epreserves_bind epreserves_readU16 fun tok => ?_
  refine epreserves_ite _ ?_ ?_
  · refine epreserves_bind epreserves_readString fun name => ?_
    refine epreserves_bind epreserves_getTableRaw fun t => ?_
    cases rootLookup t name with
    | none => exact epreserves_throwE _
    | some s => exact epreserves_pure _
  · refine epreserves_bind epreserves_getState fun st => ?_
    cases st.ids.lookup tok with
    | none => exact epreserves_throwE _
    | some s => exact epreserves_pure _

/-- `symbolRefAny` preserves the environment. -/
theorem epreserves_symbolRefAny : PreservesEnv symbolRefAny := by
  unfold symbolRefAny
  refine epreserves_bind epreserves_readU16 fun id => ?_
  refine epreserves_bind epreserves_getState fun st => ?_
  cases st.ids.lookup id with
  | none => exact epreserves_throwE _
  | some s => exact epreserves_pure _

/-- `asVariable` preserves the environment. -/
theorem epreserves_asVariable (s : Symbol) : PreservesEnv (asVariable s) := by
  unfold asVariable
  cases s <;> first | exact epreserves_pure _ | exact epreserves_throwE _

/-- `asFunctionDecl` preserves the environment. -/
theorem epreserves_asFunctionDecl (s : Symbol) :
    PreservesEnv (asFunctionDecl s) := by
  unfold asFunctionDecl
  cases s <;> first | exact epreserves_pure _ | exact epreserves_throwE _

/-- `layoutFn` preserves the environment. -/
theorem epreserves_layoutFn : PreservesEnv layoutFn := by
  unfold layoutFn
  refine epreserves_bind epreserves_readU8 fun cmd => ?_
  refine epreserves_ite _ ?_ (epreserves_ite _ ?_ (epreserves_ite _ ?_ ?_))
  · exact epreserves_bind epreserves_readS16 fun _ => epreserves_pure _
  · exact epreserves_pure _
  · exact epreserves_bind epreserves_readU32 fun _ =>
      epreserves_bind epreserves_readS8 fun _ =>
      epreserves_bind epreserves_readS16 fun _ =>
      epreserves_bind epreserves_readS16 fun _ =>
      epreserves_bind epreserves_readS8 fun _ =>
      epreserves_bind epreserves_readS8 fun _ =>
      epreserves_bind epreserves_readS16 fun _ =>
      epreserves_bind epreserves_readS8 fun _ => epreserves_pure _
  · exact epreserves_throwE _

/-- `modifiersFn` preserves the environment. -/
theorem epreserves_modifiersFn : PreservesEnv modifiersFn := by
  unfold modifiersFn
  refine epreserves_bind epreserves_readU8 fun cmd => ?_
  refine epreserves_ite _ ?_ (epreserves_ite _ ?_ (epreserves_ite _ ?_ ?_))
  · exact epreserves_pure _
  · exact epreserves_bind epreserves_layoutFn fun _ =>
      epreserves_bind epreserves_readU8 fun _ => epreserves_pure _
  · exact epreserves_bind epreserves_layoutFn fun _ =>
      epreserves_bind epreserves_readS32 fun _ => epreserves_pure _
  · exact epreserves_throwE _

/-- `readBytesLoop` preserves the environment. -/
theorem epreserves_readBytesLoop : ∀ n, PreservesEnv (readBytesLoop n) := by
  intro n
  induction n with
  | zero => exact epreserves_pure _
  | succ k ih =>
      exact epreserves_bind epreserves_readU8 fun _ =>
        epreserves_bind ih fun _ => epreserves_pure _

/-- `withScope` preserves the environment when its pieces do. -/
theorem epreserves_withScope {α : Type} {mt : M (Option SymbolTable)}
    {body : M α} (hmt : PreservesEnv mt) (hbody : PreservesEnv body) :
    PreservesEnv (withScope mt body) := by
  unfold withScope
  refine epreserves_bind epreserves_getTableRaw fun old => ?_
  refine epreserves_bind hmt fun syms => ?_
  cases syms with
  | none =>
      exact epreserves_bind (epreserves_pure _) fun _ =>
        epreserves_bind hbody fun a =>
          epreserves_bind (epreserves_setTableRaw _) fun _ =>
            epreserves_pure _
  | some t =>
      exact epreserves_bind (epreserves_setTableRaw _) fun _ =>
        epreserves_bind hbody fun a =>
          epreserves_bind (epreserves_setTableRaw _) fun _ =>
            epreserves_pure _

attribute [irreducible] PreservesEnv

set_option maxRecDepth 16384 in
set_option maxHeartbeats 4000000 in
/-- Every decoder of the bundle leaves the session environment — buffer,
ambient configuration, thread pool, pool counter, module map — unchanged. -/
theorem decoders_preserveEnv : ∀ fuel : Nat,
    PreservesEnv (decoders fuel).symbol ∧
    PreservesEnv (decoders fuel).type ∧
    (∀ n, PreservesEnv ((decoders fuel).paramLoop n)) ∧
    (∀ n, PreservesEnv ((decoders fuel).fieldLoop n)) ∧
    PreservesEnv (decoders fuel).symbolTable ∧
    (∀ n, PreservesEnv ((decoders fuel).ownedLoop n)) ∧
    (∀ arr n, PreservesEnv ((decoders fuel).visLoop arr n)) ∧
    PreservesEnv (decoders fuel).statement ∧
    (∀ n, PreservesEnv ((decoders fuel).stmtLoop n)) ∧
    (∀ n, PreservesEnv ((decoders fuel).caseLoop n)) ∧
    PreservesEnv (decoders fuel).expression ∧
    (∀ n, PreservesEnv ((decoders fuel).exprLoop n)) ∧
    PreservesEnv (decoders fuel).exprArray ∧
    PreservesEnv (decoders fuel).element ∧
    PreservesEnv (decoders fuel).elemLoop := by
  intro fuel
  induction fuel with
  | zero =>
      refine ⟨?_, ?_, ?_, ?_, ?_, ?_, ?_, ?_, ?_, ?_, ?_, ?_, ?_, ?_, ?_⟩ <;>
        simp only [decoders, decodersZero] <;>
        first
          | exact epreserves_throwE _
          | (intro n; exact epreserves_throwE _)
          | (intro arr n; exact epreserves_throwE _)
  | succ f ih =>
      obtain ⟨ihSym, ihType, ihParam, ihField, ihSymTab, ihOwned, ihVis,
        ihStmt, ihStmtLoop, ihCase, ihExpr, ihExprLoop, ihExprArray, ihElem,
        ihElemLoop⟩ := ih
      refine ⟨?_, ?_, ?_, ?_, ?_, ?_, ?_, ?_, ?_, ?_, ?_, ?_, ?_, ?_, ?_⟩ <;>
        simp only [decoders, mkStep] <;>
        repeat
          first
          | exact ihSym
          | exact ihType
          | exact ihParam _
          | exact ihField _
          | exact ihSymTab
          | exact ihOwned _
          | exact ihVis _ _
          | exact ihStmt
          | exact ihStmtLoop _
          | exact ihCase _
          | exact ihExpr
          | exact ihExprLoop _
          | exact ihExprArray
          | exact ihElem
          | exact ihElemLoop
          | exact epreserves_pure _
          | exact epreserves_throwE _
          | exact epreserves_readU8
          | exact epreserves_readU16
          | exact epreserves_readU32
          | exact epreserves_readS8
          | exact epreserves_readS16
          | exact epreserves_readS32
          | exact epreserves_readString
          | exact epreserves_getState
          | exact epreserves_getTableRaw
          | exact epreserves_setTableRaw _
          | exact epreserves_pushFrame _
          | exact epreserves_tableIsBuiltin
          | exact epreserves_takeOwnershipOfSymbol _
          | exact epreserves_takeOwnershipOfString _
          | exact epreserves_addWithoutOwnership _
          | exact epreserves_addSymbol _ _
          | exact epreserves_modifiersPoolAdd _
          | exact epreserves_possiblyBuiltinSymbolRef
          | exact epreserves_symbolRefAny
          | exact epreserves_asVariable _
          | exact epreserves_asFunctionDecl _
          | exact epreserves_modifiersFn
          | exact epreserves_layoutFn
          | exact epreserves_readBytesLoop _
          | apply epreserves_withScope
          | apply epreserves_ite
          | apply epreserves_bind
          | intro x
          | split


/-- Running `getConfig`. -/
theorem getConfig_run (s : St) : getConfig s = .ok (s.config, s) :=
  rfl

/-- Running `getModPool`. -/
theorem getModPool_run (s : St) : getModPool s = .ok (s.modPool, s) :=
  rfl

/-- Running `setConfig`. -/
theorem setConfig_run (c : Option Config) (s : St) :
    setConfig c s = .ok ((), { s with config := c }) :=
  rfl

/-- Running `setModPool`. -/
theorem setModPool_run (p : List Modifiers) (s : St) :
    setModPool p s = .ok ((), { s with modPool := p }) :=
  rfl

/-- Running `dslStart`. -/
theorem dslStart_run (s : St) :
    dslStart s = .ok ((),
      { s with threadPool := some s.nextPool, nextPool := s.nextPool + 1 }) :=
  rfl

/-- Running `detachPool`. -/
theorem detachPool_run (s : St) :
    detachPool s = .ok (s.threadPool, { s with threadPool := none }) :=
  rfl

/-- Running `dslEnd`. -/
theorem dslEnd_run (s : St) :
    dslEnd s = .ok ((), { s with threadPool := none }) :=
  rfl

/-- A symbol-table decode that produces a scope returns precisely the
scope chain it installed as current. -/
theorem symbolTableFn_some_table {fuel : Nat} {st st' : St}
    {T : SymbolTable} (h : symbolTableFn fuel st = .ok (some T, st')) :
    T = st'.table := by
  cases fuel with
  | zero =>
      simp only [symbolTableFn, decoders, decodersZero] at h
      exact absurd h (throwE_ne_ok _ _ _)
  | succ f =>
      simp only [symbolTableFn, decoders, mkStep] at h
      rw [M.bind_ok_iff] at h
      obtain ⟨t, s1, htag, h⟩ := h
      by_cases hv : t = kVoid_Command
      · rw [if_pos hv] at h
        rw [M.pure_ok_iff] at h
        obtain ⟨h1, -⟩ := Prod.mk.inj h
        exact absurd h1 (by simp)
      · rw [if_neg hv] at h
        by_cases hs : t = kSymbolTable_Command
        · rw [if_pos hs] at h
          rw [M.bind_ok_iff] at h
          obtain ⟨b, s2, -, h⟩ := h
          rw [M.bind_ok_iff] at h
          obtain ⟨oc, s3, -, h⟩ := h
          rw [M.bind_ok_iff] at h
          obtain ⟨u0, s4, -, h⟩ := h
          rw [M.bind_ok_iff] at h
          obtain ⟨syms, s5, -, h⟩ := h
          rw [M.bind_ok_iff] at h
          obtain ⟨vc, s6, -, h⟩ := h
          rw [M.bind_ok_iff] at h
          obtain ⟨u1, s7, -, h⟩ := h
          rw [M.bind_ok_iff] at h
          obtain ⟨tcur, s8, hT, h⟩ := h
          rw [getTableRaw_ok_iff] at hT
          obtain ⟨hT1, hT2⟩ := Prod.mk.inj hT
          rw [M.pure_ok_iff] at h
          obtain ⟨h1, h2⟩ := Prod.mk.inj h
          rw [Option.some.inj h1, hT1, h2, hT2]
        · rw [if_neg hs] at h
          exact absurd h (throwE_ne_ok _ _ _)

/-! ### C3: program assembly and finalization -/

/-- C3: after the element list is decoded, the saved ambient configuration
and modifiers pool are restored to their pre-decode values, the trailing
coordinate-flip input flag is read, the session's allocation arena is
detached from thread-local storage into the result, the `Program` is
assembled and returned, and the ambient current scope is popped one level
to the parent of the decoded root scope. -/
theorem c3_program_finalization (fuel : Nat) (st stF : St) (prog : Program)
    (h : programFn fuel st = .ok (prog, stF)) :
    ∃ kind rv st1 st2 st3 rootR stRoot elems stEl flagByte stFl,
      readU8 st = .ok (kProgram_Command, st1) ∧
      readU8 st1 = .ok (kind, st2) ∧
      readU8 st2 = .ok (rv, st3) ∧
      prog.config = ⟨kind, rv, versionK300⟩ ∧
      symbolTableFn fuel
        { st3 with
            config := some ⟨kind, rv, versionK300⟩,
            table := st3.moduleFor kind, threadPool := some st3.nextPool,
            nextPool := st3.nextPool + 1, modPool := [] } =
        .ok (rootR, stRoot) ∧
      elementsFn fuel stRoot = .ok (elems, stEl) ∧
      prog.elements = elems ∧
      prog.modifiersPool = stEl.modPool ∧
      readU8 { stEl with config := st.config, modPool := st.modPool } =
        .ok (flagByte, stFl) ∧
      prog.inputsUseFlipRT = decide (flagByte ≠ 0) ∧
      prog.pool = some st.nextPool ∧
      prog.symbols = stEl.table ∧
      stF.config = st.config ∧
      stF.modPool = st.modPool ∧
      stF.threadPool = none ∧
      stF.table = stEl.table.tail ∧
      (∀ S, rootR = some S → stF.table = S.tail) := by
  unfold programFn at h
  rw [M.bind_ok_iff] at h
  obtain ⟨c, st1, hc, h⟩ := h
  by_cases hprog : c = kProgram_Command
  · rw [if_pos hprog] at h
    subst hprog
    rw [M.bind_ok_iff] at h
    obtain ⟨kind, st2, hkind, h⟩ := h
    rw [M.bind_ok_iff] at h
    obtain ⟨rv, st3, hrv, h⟩ := h
    rw [M.bind_ok_iff] at h
    obtain ⟨oldC, s3a, hoc, h⟩ := h
    rw [getConfig_run] at hoc
    obtain ⟨hoc1, hoc2⟩ := Prod.mk.inj (Except.ok.inj hoc)
    subst hoc1
    subst hoc2
    rw [M.bind_ok_iff] at h
    obtain ⟨oldP, s3b, hop, h⟩ := h
    rw [getModPool_run] at hop
    obtain ⟨hop1, hop2⟩ := Prod.mk.inj (Except.ok.inj hop)
    subst hop1
    subst hop2
    rw [M.bind_ok_iff] at h
    obtain ⟨u1, s4, hsc, h⟩ := h
    rw [setConfig_run] at hsc
    obtain ⟨-, hsc2⟩ := Prod.mk.inj (Except.ok.inj hsc)
    subst hsc2
    rw [M.bind_ok_iff] at h
    obtain ⟨u2, s5, hmt, h⟩ := h
    rw [modifyState_ok_iff] at hmt
    obtain ⟨-, hmt2⟩ := Prod.mk.inj hmt
    subst hmt2
    rw [M.bind_ok_iff] at h
    obtain ⟨u3, s6, hds, h⟩ := h
    rw [dslStart_run] at hds
    obtain ⟨-, hds2⟩ := Prod.mk.inj (Except.ok.inj hds)
    subst hds2
    rw [M.bind_ok_iff] at h
    obtain ⟨u4, s7, hsp, h⟩ := h
    rw [setModPool_run] at hsp
    obtain ⟨-, hsp2⟩ := Prod.mk.inj (Except.ok.inj hsp)
    subst hsp2
    rw [M.bind_ok_iff] at h
    obtain ⟨rootR, stRoot, hroot, h⟩ := h
    rw [M.bind_ok_iff] at h
    obtain ⟨elems, stEl, helems, h⟩ := h
    rw [M.bind_ok_iff] at h
    obtain ⟨newP, s8, hnp, h⟩ := h
    rw [getModPool_run] at hnp
    obtain ⟨hnp1, hnp2⟩ := Prod.mk.inj (Except.ok.inj hnp)
    subst hnp1
    subst hnp2
    rw [M.bind_ok_iff] at h
    obtain ⟨u5, s9, hrc, h⟩ := h
    rw [setConfig_run] at hrc
    obtain ⟨-, hrc2⟩ := Prod.mk.inj (Except.ok.inj hrc)
    subst hrc2
    rw [M.bind_ok_iff] at h
    obtain ⟨u6, s10, hrp, h⟩ := h
    rw [setModPool_run] at hrp
    obtain ⟨-, hrp2⟩ := Prod.mk.inj (Except.ok.inj hrp)
    subst hrp2
    rw [M.bind_ok_iff] at h
    obtain ⟨flip, s11, hflip, h⟩ := h
    have hs11 := readU8_state hflip
    subst hs11
    rw [M.bind_ok_iff] at h
    obtain ⟨pool, s12, hdet, h⟩ := h
    rw [detachPool_run] at hdet
    obtain ⟨hdet1, hdet2⟩ := Prod.mk.inj (Except.ok.inj hdet)
    subst hdet1
    subst hdet2
    rw [M.bind_ok_iff] at h
    obtain ⟨tcur, s13, htc, h⟩ := h
    rw [getTableRaw_ok_iff] at htc
    obtain ⟨htc1, htc2⟩ := Prod.mk.inj htc
    subst htc2
    have htcT : tcur = stEl.table := htc1
    rw [htcT] at h
    -- environment facts across the root-scope and element decodes
    have henvRoot : envOf stRoot = envOf
        { st3 with
            config := some ⟨kind, rv, versionK300⟩,
            table := st3.moduleFor kind, threadPool := some st3.nextPool,
            nextPool := st3.nextPool + 1, modPool := [] } :=
      ((decoders_preserveEnv fuel).2.2.2.2.1).runEnv hroot
    have henvEl : envOf stEl = envOf stRoot := by
      revert helems
      unfold elementsFn
      intro helems
      rw [M.bind_ok_iff] at helems
      obtain ⟨c2, sE1, hc2, helems⟩ := helems
      by_cases he : c2 = kElements_Command
      · rw [if_pos he] at helems
        exact (((decoders_preserveEnv
          fuel).2.2.2.2.2.2.2.2.2.2.2.2.2.2).runEnv helems).trans
          ((epreserves_readU8).runEnv hc2)
      · rw [if_neg he] at helems
        exact absurd helems (throwE_ne_ok _ _ _)
    have henv := henvEl.trans henvRoot
    have hElTp : stEl.threadPool = some st3.nextPool :=
      congrArg (fun x => x.2.2.1) henv
    have hnp3 : st3.nextPool = st.nextPool := by
      rw [readU8_state hrv, readU8_state hkind, readU8_state hc]
    have hcfg3 : st3.config = st.config := by
      rw [readU8_state hrv, readU8_state hkind, readU8_state hc]
    have hmp3 : st3.modPool = st.modPool := by
      rw [readU8_state hrv, readU8_state hkind, readU8_state hc]
    cases htcur : stEl.table with
    | nil =>
        rw [htcur] at h
        simp only [] at h
        rw [M.bind_ok_iff] at h
        obtain ⟨u7, s14, habs, -⟩ := h
        exact absurd habs (throwE_ne_ok _ _ _)
    | cons fHead parent =>
        rw [htcur] at h
        simp only [] at h
        rw [M.bind_ok_iff] at h
        obtain ⟨u7, s14, hpop, h⟩ := h
        rw [setTableRaw_ok_iff] at hpop
        obtain ⟨-, hpop2⟩ := Prod.mk.inj hpop
        subst hpop2
        rw [M.bind_ok_iff] at h
        obtain ⟨u8, s15, hend, h⟩ := h
        rw [dslEnd_run] at hend
        obtain ⟨-, hend2⟩ := Prod.mk.inj (Except.ok.inj hend)
        subst hend2
        rw [M.pure_ok_iff] at h
        obtain ⟨hprog1, hprogF⟩ := Prod.mk.inj h
        subst hprog1
        subst hprogF
        refine ⟨kind, rv, st1, st2, st3, rootR, stRoot, elems, stEl, flip,
          { stEl with
              config := st.config, modPool := st.modPool,
              ip := stEl.ip + 1 }, hc, hkind, hrv, rfl, ?_, helems, rfl, rfl,
          ?_, rfl, ?_, ?_, ?_, ?_, ?_, ?_, ?_⟩
        · exact hroot
        · rw [← hcfg3, ← hmp3]
          exact hflip
        · show stEl.threadPool = some st.nextPool
          rw [hElTp, hnp3]
        · show fHead :: parent = stEl.table
          rw [htcur]
        · show st3.config = st.config
          exact hcfg3
        · show st3.modPool = st.modPool
          exact hmp3
        · rfl
        · show parent = stEl.table.tail
          rw [htcur, List.tail_cons]
        · intro S hS
          have hSroot : S = stRoot.table := symbolTableFn_some_table
            (by rw [← hS]; exact hroot)
          have hTQ : TQ stRoot stEl := by
            revert helems
            unfold elementsFn
            intro helems
            rw [M.bind_ok_iff] at helems
            obtain ⟨c2, sE1, hc2, helems⟩ := helems
            by_cases he : c2 = kElements_Command
            · rw [if_pos he] at helems
              exact (preserves_readU8.runTQ hc2).trans
                (((decoders_preserveTQ fuel).2.2.2.2.2.2.2.2.2.2.2.2).runTQ
                  helems)
            · rw [if_neg he] at helems
              exact absurd helems (throwE_ne_ok _ _ _)
          show parent = S.tail
          rw [hSroot, ← hTQ.1, htcur, List.tail_cons]
  · rw [if_neg hprog] at h
    exact absurd h (throwE_ne_ok _ _ _)

/-- A complete concrete program image: header, empty root symbol table
(builtin flag set, no owned symbols, no visible bindings), an empty element
list, and a set coordinate-flip flag. -/
def stC3 : St :=
  wSt [kProgram_Command, 0, 0, kSymbolTable_Command, 1, 0, 0, 0, 0,
    kElements_Command, kElementsComplete_Command, 1] []

/-- C3 witness: the concrete image `stC3` decodes end to end and the whole
finalization sequence is exhibited on it. -/
theorem c3_program_finalization_witness :
    ∃ prog stF, programFn 12 stC3 = .ok (prog, stF) ∧
      ∃ kind rv st1 st2 st3 rootR stRoot elems stEl flagByte stFl,
        readU8 stC3 = .ok (kProgram_Command, st1) ∧
        readU8 st1 = .ok (kind, st2) ∧
        readU8 st2 = .ok (rv, st3) ∧
        prog.config = ⟨kind, rv, versionK300⟩ ∧
        symbolTableFn 12
          { st3 with
              config := some ⟨kind, rv, versionK300⟩,
              table := st3.moduleFor kind, threadPool := some st3.nextPool,
              nextPool := st3.nextPool + 1, modPool := [] } =
          .ok (rootR, stRoot) ∧
        elementsFn 12 stRoot = .ok (elems, stEl) ∧
        prog.elements = elems ∧
        prog.modifiersPool = stEl.modPool ∧
        readU8 { stEl with config := stC3.config, modPool := stC3.modPool } =
          .ok (flagByte, stFl) ∧
        prog.inputsUseFlipRT = decide (flagByte ≠ 0) ∧
        prog.pool = some stC3.nextPool ∧
        prog.symbols = stEl.table ∧
        stF.config = stC3.config ∧
        stF.modPool = stC3.modPool ∧
        stF.threadPool = none ∧
        stF.table = stEl.table.tail ∧
        (∀ S, rootR = some S → stF.table = S.tail) :=
  ⟨_, _, rfl, c3_program_finalization 12 stC3 _ _ rfl⟩

/-! ### C9: a completed session consumes the whole buffer exactly once -/

/-- A computation leaves the byte buffer itself unchanged on success. -/
def PreservesBuf {α : Type} (m : M α) : Prop :=
  ∀ s a s', m s = .ok (a, s') → s'.buf = s.buf

/-- Eliminator for `PreservesBuf`. -/
theorem PreservesBuf.runBuf {α : Type} {m : M α} (hm : PreservesBuf m) {s : St}
    {a : α} {s' : St} (h : m s = .ok (a, s')) : s'.buf = s.buf :=
  hm s a s' h

/-- Environment preservation includes buffer preservation. -/
theorem pbuf_of_env {α : Type} {m : M α} (hm : PreservesEnv m) :
    PreservesBuf m :=
  fun _ _ _ h => congrArg Prod.fst (hm.runEnv h)

/-- Binds of buffer-preserving computations preserve the buffer. -/
theorem pbuf_bind {α β : Type} {m : M α} {f : α → M β}
    (hm : PreservesBuf m) (hf : ∀ a, PreservesBuf (f a)) :
    PreservesBuf (m >>= f) := by
  intro s b s' h
  rw [M.bind_ok_iff] at h
  obtain ⟨a, s1, h1, h2⟩ := h
  exact (hf a s1 b s' h2).trans (hm s a s1 h1)

/-- `pure` preserves the buffer. -/
theorem pbuf_pure {α : Type} (a : α) : PreservesBuf (pure a : M α) := by
  intro s b s' h
  rw [M.pure_ok_iff] at h
  obtain ⟨-, h2⟩ := Prod.mk.inj h
  rw [h2]

/-- `throwE` never succeeds, so it preserves the buffer. -/
theorem pbuf_throwE {α : Type} (e : Err) :
    PreservesBuf (throwE e : M α) := by
  intro s b s' h
  exact absurd h (throwE_ne_ok _ _ _)

/-- Conditionals of buffer-preserving computations preserve the buffer. -/
theorem pbuf_ite {α : Type} (c : Prop) [Decidable c] {m1 m2 : M α}
    (h1 : PreservesBuf m1) (h2 : PreservesBuf m2) :
    PreservesBuf (if c then m1 else m2) := by
  by_cases hc : c
  · rwa [if_pos hc]
  · rwa [if_neg hc]

/-- `modifyState` with a buffer-respecting update preserves the buffer. -/
theorem pbuf_modifyState (f : St → St) (hf : ∀ s, (f s).buf = s.buf) :
    PreservesBuf (modifyState f) := by
  intro s a s' h
  rw [modifyState_ok_iff] at h
  obtain ⟨-, h2⟩ := Prod.mk.inj h
  rw [h2]
  exact hf s

/-- `getConfig` preserves the buffer. -/
theorem pbuf_getConfig : PreservesBuf getConfig := by
  intro s a s' h
  rw [getConfig_run] at h
  obtain ⟨-, h2⟩ := Prod.mk.inj (Except.ok.inj h)
  rw [← h2]

/-- `getModPool` preserves the buffer. -/
theorem pbuf_getModPool : PreservesBuf getModPool := by
  intro s a s' h
  rw [getModPool_run] at h
  obtain ⟨-, h2⟩ := Prod.mk.inj (Except.ok.inj h)
  rw [← h2]

/-- `setConfig` preserves the buffer. -/
theorem pbuf_setConfig (c : Option Config) : PreservesBuf (setConfig c) := by
  intro s a s' h
  rw [setConfig_run] at h
  obtain ⟨-, h2⟩ := Prod.mk.inj (Except.ok.inj h)
  rw [← h2]

/-- `setModPool` preserves the buffer. -/
theorem pbuf_setModPool (p : List Modifiers) :
    PreservesBuf (setModPool p) := by
  intro s a s' h
  rw [setModPool_run] at h
  obtain ⟨-, h2⟩ := Prod.mk.inj (Except.ok.inj h)
  rw [← h2]

/-- `dslStart` preserves the buffer. -/
theorem pbuf_dslStart : PreservesBuf dslStart := by
  intro s a s' h
  rw [dslStart_run] at h
  obtain ⟨-, h2⟩ := Prod.mk.inj (Except.ok.inj h)
  rw [← h2]

/-- `dslEnd` preserves the buffer. -/
theorem pbuf_dslEnd : PreservesBuf dslEnd := by
  intro s a s' h
  rw [dslEnd_run] at h
  obtain ⟨-, h2⟩ := Prod.mk.inj (Except.ok.inj h)
  rw [← h2]

/-- `detachPool` preserves the buffer. -/
theorem pbuf_detachPool : PreservesBuf detachPool := by
  intro s a s' h
  rw [detachPool_run] at h
  obtain ⟨-, h2⟩ := Prod.mk.inj (Except.ok.inj h)
  rw [← h2]

/-- The root symbol-table decode preserves the buffer. -/
theorem symbolTableFn_pbuf (fuel : Nat) :
    PreservesBuf (symbolTableFn fuel) :=
  pbuf_of_env (decoders_preserveEnv fuel).2.2.2.2.1

/-- The element-list decode preserves the buffer. -/
theorem elementsFn_pbuf (fuel : Nat) : PreservesBuf (elementsFn fuel) := by
  unfold elementsFn
  apply pbuf_bind (pbuf_of_env epreserves_readU8)
  intro c
  apply pbuf_ite
  · exact pbuf_of_env
      (decoders_preserveEnv fuel).2.2.2.2.2.2.2.2.2.2.2.2.2.2
  · exact pbuf_throwE _

/-- The constructor never alters the buffer, only the cursor. -/
theorem rehydratorInit_pbuf : PreservesBuf rehydratorInit := by
  unfold rehydratorInit
  repeat
    first
    | exact pbuf_of_env epreserves_tableIsBuiltin
    | exact pbuf_of_env epreserves_readU16
    | exact pbuf_throwE _
    | exact pbuf_modifyState _ (fun s => rfl)
    | apply pbuf_ite
    | apply pbuf_bind
    | split
    | simp only []
    | intro x

/-- The whole-program decode never alters the buffer. -/
theorem programFn_pbuf (fuel : Nat) : PreservesBuf (programFn fuel) := by
  unfold programFn
  repeat
    first
    | exact pbuf_of_env epreserves_readU8
    | exact pbuf_getConfig
    | exact pbuf_getModPool
    | exact pbuf_setConfig _
    | exact pbuf_setModPool _
    | exact pbuf_dslStart
    | exact pbuf_dslEnd
    | exact pbuf_detachPool
    | exact symbolTableFn_pbuf fuel
    | exact elementsFn_pbuf fuel
    | exact pbuf_of_env epreserves_getTableRaw
    | exact pbuf_of_env (epreserves_setTableRaw _)
    | exact pbuf_modifyState _ (fun s => rfl)
    | exact pbuf_pure _
    | exact pbuf_throwE _
    | apply pbuf_ite
    | apply pbuf_bind
    | split
    | simp only []
    | intro x

/-- C9: every completed decode session consumes the entire input buffer
exactly once — the buffer is never altered, no decoder reads past its end
(any overrun is a fatal error, so a completed session performed none), and
at session end the destructor's check `fIP == fEnd` holds: the cursor
stands exactly at the end of the buffer with no leftover bytes. -/
theorem c9_session_exhaustion (fuel : Nat) (st stF : St) (prog : Program)
    (h : sessionFn fuel st = .ok (prog, stF)) :
    stF.buf = st.buf ∧ stF.ip = st.buf.length := by
  unfold sessionFn at h
  rw [M.bind_ok_iff] at h
  obtain ⟨u0, s1, hinit, h⟩ := h
  rw [M.bind_ok_iff] at h
  obtain ⟨p, s2, hprog, h⟩ := h
  rw [M.bind_ok_iff] at h
  obtain ⟨sc, s3, hgs, h⟩ := h
  have hgs' : (Except.ok (s2, s2) : Except Err (St × St)) = .ok (sc, s3) :=
    hgs
  obtain ⟨hsc, hs3⟩ := Prod.mk.inj (Except.ok.inj hgs')
  rw [← hsc, ← hs3] at h
  by_cases hip : s2.ip = s2.buf.length
  · rw [if_pos hip] at h
    rw [M.pure_ok_iff] at h
    obtain ⟨hp, hsF⟩ := Prod.mk.inj h
    have hb : s2.buf = st.buf :=
      ((programFn_pbuf fuel).runBuf hprog).trans (rehydratorInit_pbuf.runBuf hinit)
    refine ⟨?_, ?_⟩
    · rw [hsF]
      exact hb
    · rw [hsF, hip, hb]
  · rw [if_neg hip] at h
    exact absurd h (throwE_ne_ok _ _ _)

/-- A complete concrete session image: format-version header, empty string
blob, and the program image of `stC3`. -/
def stC9 : St :=
  wSt [9, 0, 0, 0, kProgram_Command, 0, 0, kSymbolTable_Command, 1, 0, 0,
    0, 0, kElements_Command, kElementsComplete_Command, 1] []

/-- C9 witness: the concrete session image decodes to completion with the
cursor exactly at the end of its 16-byte buffer. -/
theorem c9_session_exhaustion_witness :
    ∃ prog stF, sessionFn 12 stC9 = .ok (prog, stF) ∧
      stF.buf = stC9.buf ∧ stF.ip = stC9.buf.length :=
  ⟨_, _, rfl, c9_session_exhaustion 12 stC9 _ _ rfl⟩

/-! ### C10: visible-pass owned indices are in bounds under the
token precondition -/

/-- Error characterization of `bind` on the decode monad. -/
theorem M.bind_error_iff {α β : Type} (m : M α) (f : α → M β) (s : St)
    (e : Err) :
    (m >>= f) s = .error e ↔
      m s = .error e ∨ ∃ a s1, m s = .ok (a, s1) ∧ f a s1 = .error e := by
  rw [M.bind_def]
  cases hm : m s with
  | ok r =>
      obtain ⟨a, s1⟩ := r
      simp only []
      constructor
      · intro h
        exact Or.inr ⟨a, s1, rfl, h⟩
      · rintro (h | ⟨a1, s2, heq, h⟩)
        · exact Except.noConfusion h
        · obtain ⟨h1, h2⟩ := Prod.mk.inj (Except.ok.inj heq)
          rw [← h1, ← h2] at h
          exact h
  | error e1 =>
      simp only []
      constructor
      · intro h
        exact Or.inl (by rw [Except.error.inj h])
      · rintro (h | ⟨a1, s2, heq, -⟩)
        · rw [Except.error.inj h]
        · exact Except.noConfusion heq

/-- A failing byte read is always the overrun error. -/
theorem readU8_error {s : St} {e : Err} (h : readU8 s = .error e) :
    e = .overrun := by
  unfold readU8 at h
  cases hg : s.buf.get? s.ip with
  | some b =>
      rw [hg] at h
      exact Except.noConfusion h
  | none =>
      rw [hg] at h
      exact (Except.error.inj h).symm

/-- A failing 16-bit read is always the overrun error. -/
theorem readU16_error {s : St} {e : Err} (h : readU16 s = .error e) :
    e = .overrun := by
  unfold readU16 at h
  rw [M.bind_error_iff] at h
  rcases h with h | ⟨a, s1, -, h⟩
  · exact readU8_error h
  · rw [M.bind_error_iff] at h
    rcases h with h | ⟨b, s2, -, h⟩
    · exact readU8_error h
    · exact Except.noConfusion h

/-- A failing string read is always the string-underrun error. -/
theorem readString_error {s : St} {e : Err} (h : readString s = .error e) :
    e = .stringUnderrun := by
  unfold readString at h
  cases hg : s.strs with
  | nil =>
      rw [hg] at h
      exact (Except.error.inj h).symm
  | cons x rest =>
      rw [hg] at h
      exact Except.noConfusion h

/-- `readString` leaves the buffer and the cursor alone. -/
theorem readString_state {s : St} {x : String} {s1 : St}
    (h : readString s = .ok (x, s1)) : s1.buf = s.buf ∧ s1.ip = s.ip := by
  unfold readString at h
  cases hg : s.strs with
  | nil =>
      rw [hg] at h
      exact Except.noConfusion h
  | cons y rest =>
      rw [hg] at h
      obtain ⟨-, h2⟩ := Prod.mk.inj (Except.ok.inj h)
      rw [← h2]
      exact ⟨rfl, rfl⟩

/-- A failing visible binding is always the null-table error. -/
theorem addWithoutOwnership_error {sym : Symbol} {s : St} {e : Err}
    (h : addWithoutOwnership sym s = .error e) : e = .nullTable := by
  unfold addWithoutOwnership at h
  rw [M.bind_error_iff] at h
  rcases h with h | ⟨t, sa, hok, h⟩
  · exact Except.noConfusion h
  · have hok1 : (Except.ok (s.table, s) : Except Err (SymbolTable × St)) =
      .ok (t, sa) := hok
    obtain ⟨h1, h2⟩ := Prod.mk.inj (Except.ok.inj hok1)
    rw [← h1, ← h2] at h
    cases hT : s.table with
    | nil =>
        rw [hT] at h
        exact (Except.error.inj h).symm
    | cons f rest =>
        rw [hT] at h
        exact Except.noConfusion h

/-- A successful visible binding touches only the scope chain. -/
theorem addWithoutOwnership_state {sym : Symbol} {s : St} {u : Unit}
    {s1 : St} (h : addWithoutOwnership sym s = .ok (u, s1)) :
    s1.buf = s.buf ∧ s1.ip = s.ip ∧ s1.strs = s.strs := by
  unfold addWithoutOwnership at h
  rw [M.bind_ok_iff] at h
  obtain ⟨t, sa, hok, h⟩ := h
  have hok1 : (Except.ok (s.table, s) : Except Err (SymbolTable × St)) =
    .ok (t, sa) := hok
  obtain ⟨h1, h2⟩ := Prod.mk.inj (Except.ok.inj hok1)
  rw [← h1, ← h2] at h
  cases hT : s.table with
  | nil =>
      rw [hT] at h
      exact Except.noConfusion h
  | cons f rest =>
      rw [hT] at h
      rw [setTableRaw_ok_iff] at h
      obtain ⟨-, h3⟩ := Prod.mk.inj h
      rw [h3]
      exact ⟨rfl, rfl, rfl⟩

/-- Resolved bindings sit at the same positions as their references. -/
theorem bindAll_get {arr : List Symbol} {t : SymbolTable} :
    ∀ {refs : List VisRef} {bound : List Symbol},
    bindAll arr t refs = some bound →
    ∀ j r, refs.get? j = some r → bound.get? j = bindRefIn arr t r := by
  intro refs
  induction refs with
  | nil =>
      intro bound h j r hj
      exact Option.noConfusion hj
  | cons r0 rs ih =>
      intro bound h j r hj
      unfold bindAll at h
      cases hb0 : bindRefIn arr t r0 with
      | none =>
          rw [hb0] at h
          exact Option.noConfusion h
      | some s0 =>
          rw [hb0] at h
          cases hbs : bindAll arr t rs with
          | none =>
              rw [hbs] at h
              exact Option.noConfusion h
          | some ss =>
              rw [hbs] at h
              have hb : s0 :: ss = bound := Option.some.inj h
              rw [← hb]
              cases j with
              | zero =>
                  have hr : r0 = r := Option.some.inj hj
                  rw [← hr, hb0]
                  rfl
              | succ j1 =>
                  have hj1 : rs.get? j1 = some r := hj
                  exact ih hbs j1 r hj1

/-- One-step unfolding of the pure reference decode. -/
theorem decodeVisRefs_succ (buf : List Nat) (ip : Nat) (strs : List String)
    (n : Nat) :
    decodeVisRefs buf ip strs (n + 1) =
      match u16At buf ip with
      | none => none
      | some tok =>
        if tok = kBuiltin_Symbol then
          match strs with
          | [] => none
          | s :: rest =>
            match decodeVisRefs buf (ip + 2) rest n with
            | none => none
            | some (refs, ipE, strsE) =>
                some (.builtinName s :: refs, ipE, strsE)
        else
          match decodeVisRefs buf (ip + 2) strs n with
          | none => none
          | some (refs, ipE, strsE) =>
              some (.ownedIdx tok :: refs, ipE, strsE) :=
  rfl

/-- The pure reference decode reads exactly `n` tokens, each owned-index
reference carrying the 16-bit token at its slot, never the sentinel. -/
theorem decodeVisRefs_tokens :
    ∀ (n : Nat) (buf : List Nat) (ip : Nat) (strs : List String)
      (refs : List VisRef) (ipE : Nat) (strsE : List String),
      decodeVisRefs buf ip strs n = some (refs, ipE, strsE) →
      refs.length = n ∧
      ∀ j i, refs.get? j = some (VisRef.ownedIdx i) →
        u16At buf (ip + 2 * j) = some i ∧ i ≠ kBuiltin_Symbol := by
  intro n
  induction n with
  | zero =>
      intro buf ip strs refs ipE strsE h
      have h1 : (some (([] : List VisRef), ip, strs) :
          Option (List VisRef × Nat × List String)) =
          some (refs, ipE, strsE) := h
      obtain ⟨h2, -⟩ := Prod.mk.inj (Option.some.inj h1)
      constructor
      · rw [← h2]
        rfl
      · intro j i hj
        rw [← h2] at hj
        exact Option.noConfusion hj
  | succ k ih =>
      intro buf ip strs refs ipE strsE h
      rw [decodeVisRefs_succ] at h
      cases hu : u16At buf ip with
      | none =>
          rw [hu] at h
          exact Option.noConfusion h
      | some tok =>
          rw [hu] at h
          simp only [] at h
          by_cases hsent : tok = kBuiltin_Symbol
          · rw [if_pos hsent] at h
            cases hstrs : strs with
            | nil =>
                rw [hstrs] at h
                exact Option.noConfusion h
            | cons s0 rest =>
                rw [hstrs] at h
                simp only [] at h
                cases hdec : decodeVisRefs buf (ip + 2) rest k with
                | none =>
                    rw [hdec] at h
                    exact Option.noConfusion h
                | some trip =>
                    obtain ⟨refs1, ipE1, strsE1⟩ := trip
                    rw [hdec] at h
                    obtain ⟨h1, -⟩ := Prod.mk.inj (Option.some.inj h)
                    obtain ⟨ihlen, ihtok⟩ :=
                      ih buf (ip + 2) rest refs1 ipE1 strsE1 hdec
                    constructor
                    · rw [← h1]
                      simp only [List.length_cons, ihlen]
                    · intro j i hj
                      rw [← h1] at hj
                      cases j with
                      | zero =>
                          exact VisRef.noConfusion (Option.some.inj hj)
                      | succ j1 =>
                          obtain ⟨hu1, hne⟩ := ihtok j1 i hj
                          refine ⟨?_, hne⟩
                          rw [show ip + 2 * (j1 + 1) = ip + 2 + 2 * j1 from
                            by omega]
                          exact hu1
          · rw [if_neg hsent] at h
            cases hdec : decodeVisRefs buf (ip + 2) strs k with
            | none =>
                rw [hdec] at h
                exact Option.noConfusion h
            | some trip =>
                obtain ⟨refs1, ipE1, strsE1⟩ := trip
                rw [hdec] at h
                obtain ⟨h1, -⟩ := Prod.mk.inj (Option.some.inj h)
                obtain ⟨ihlen, ihtok⟩ :=
                  ih buf (ip + 2) strs refs1 ipE1 strsE1 hdec
                constructor
                · rw [← h1]
                  simp only [List.length_cons, ihlen]
                · intro j i hj
                  rw [← h1] at hj
                  cases j with
                  | zero =>
                      have heq : VisRef.ownedIdx tok = VisRef.ownedIdx i :=
                        Option.some.inj hj
                      have hti : tok = i := VisRef.ownedIdx.inj heq
                      constructor
                      · rw [show ip + 2 * 0 = ip from by omega, hu, hti]
                      · rw [← hti]
                        exact hsent
                  | succ j1 =>
                      obtain ⟨hu1, hne⟩ := ihtok j1 i hj
                      refine ⟨?_, hne⟩
                      rw [show ip + 2 * (j1 + 1) = ip + 2 + 2 * j1 from
                        by omega]
                      exact hu1

/-- Under the in-bounds token precondition, the visible pass can never
reach the out-of-bounds branch, at any fuel. -/
theorem visLoop_no_oob : ∀ (n fuel : Nat) (arr : List Symbol) (st : St),
    (∀ i tok, i < n → u16At st.buf (st.ip + 2 * i) = some tok →
      tok ≠ kBuiltin_Symbol → tok < arr.length) →
    (decoders fuel).visLoop arr n st ≠ .error .oobOwnedIndex := by
  intro n
  induction n with
  | zero =>
      intro fuel arr st hpre h
      cases fuel with
      | zero =>
          simp only [decoders, decodersZero] at h
          exact Err.noConfusion (Except.error.inj h)
      | succ g =>
          simp only [decoders, mkStep] at h
          exact Except.noConfusion h
  | succ k ih =>
      intro fuel arr st hpre h
      cases fuel with
      | zero =>
          simp only [decoders, decodersZero] at h
          exact Err.noConfusion (Except.error.inj h)
      | succ g =>
          simp only [decoders, mkStep] at h
          rw [M.bind_error_iff] at h
          rcases h with h | ⟨index, s1, hok, h⟩
          · exact Err.noConfusion (readU16_error h)
          · obtain ⟨hu16, hs1⟩ := readU16_ok hok
            by_cases hsent : index ≠ kBuiltin_Symbol
            · rw [if_pos hsent] at h
              have hidx : index < arr.length := by
                apply hpre 0 index (Nat.succ_pos k) ?_ hsent
                rw [show st.ip + 2 * 0 = st.ip from by omega]
                exact hu16
              cases hget : arr.get? index with
              | none =>
                  rw [List.get?_eq_none] at hget
                  omega
              | some sym =>
                  rw [hget] at h
                  simp only [] at h
                  rw [M.bind_error_iff] at h
                  rcases h with h | ⟨u, s2, hadd, h⟩
                  · exact Err.noConfusion (addWithoutOwnership_error h)
                  · obtain ⟨hb2, hi2, -⟩ := addWithoutOwnership_state hadd
                    have hbuf2 : s2.buf = st.buf := by rw [hb2, hs1]
                    have hip2 : s2.ip = st.ip + 2 := by rw [hi2, hs1]
                    refine ih g arr s2 ?_ h
                    intro i tok hik hu hne
                    rw [hbuf2, hip2,
                      show st.ip + 2 + 2 * i = st.ip + 2 * (i + 1) from
                        by omega] at hu
                    exact hpre (i + 1) tok (by omega) hu hne
            · rw [if_neg hsent] at h
              rw [M.bind_error_iff] at h
              rcases h with h | ⟨name, s2, hstr, h⟩
              · exact Err.noConfusion (readString_error h)
              · obtain ⟨hbs2, his2⟩ := readString_state hstr
                rw [M.bind_error_iff] at h
                rcases h with h | ⟨t, s3, hgt, h⟩
                · exact Except.noConfusion h
                · have hgt1 : (Except.ok (s2.table, s2) :
                      Except Err (SymbolTable × St)) = .ok (t, s3) := hgt
                  obtain ⟨ht, hs3⟩ := Prod.mk.inj (Except.ok.inj hgt1)
                  cases hlook : rootLookup t name with
                  | none =>
                      rw [hlook] at h
                      simp only [] at h
                      rw [M.bind_error_iff] at h
                      rcases h with h | ⟨u, s4, habs, -⟩
                      · exact Err.noConfusion (Except.error.inj h)
                      · exact Except.noConfusion habs
                  | some sym =>
                      rw [hlook] at h
                      simp only [] at h
                      rw [M.bind_error_iff] at h
                      rcases h with h | ⟨u, s4, hadd, h⟩
                      · exact Err.noConfusion (addWithoutOwnership_error h)
                      · obtain ⟨hb4, hi4, -⟩ := addWithoutOwnership_state hadd
                        have hbuf4 : s4.buf = st.buf := by
                          rw [hb4, ← hs3, hbs2, hs1]
                        have hip4 : s4.ip = st.ip + 2 := by
                          rw [hi4, ← hs3, his2, hs1]
                        refine ih g arr s4 ?_ h
                        intro i tok hik hu hne
                        rw [hbuf4, hip4,
                          show st.ip + 2 + 2 * i = st.ip + 2 * (i + 1) from
                            by omega] at hu
                        exact hpre (i + 1) tok (by omega) hu hne

/-- C10: in the visible pass, a non-sentinel reference token is used
directly as an index into the owned-symbol array, with no bounds check in
the decoder itself; when every non-sentinel token is strictly below the
owned count, the out-of-bounds branch is unreachable, and every owned
reference at position `j` resolves to exactly the owned symbol decoded at
the token's index. -/
theorem c10_owned_index_in_bounds (fuel n : Nat) (arr : List Symbol)
    (st : St)
    (hpre : ∀ i tok, i < n → u16At st.buf (st.ip + 2 * i) = some tok →
      tok ≠ kBuiltin_Symbol → tok < arr.length) :
    visLoopFn fuel arr n st ≠ .error .oobOwnedIndex ∧
    (∀ (u : Unit) (st' : St) (f : ScopeFrame) (rest : List ScopeFrame),
      visLoopFn fuel arr n st = .ok (u, st') → st.table = f :: rest →
      rest ≠ [] →
      ∃ refs bound,
        decodeVisRefs st.buf st.ip st.strs n =
          some (refs, st'.ip, st'.strs) ∧
        bindAll arr rest refs = some bound ∧
        st'.table =
          { f with entries :=
              f.entries ++ bound.map (fun s => (s.symName, s)) } :: rest ∧
        ∀ j i, refs.get? j = some (VisRef.ownedIdx i) →
          i < arr.length ∧ bound.get? j = arr.get? i) := by
  constructor
  · exact visLoop_no_oob n fuel arr st hpre
  · intro u st' f rest h htab hrest
    obtain ⟨refs, bound, hdec, hbind, htab1, -⟩ :=
      visLoop_spec n fuel arr st u st' f rest h htab hrest
    refine ⟨refs, bound, hdec, hbind, htab1, ?_⟩
    intro j i hj
    obtain ⟨hlen, htok⟩ :=
      decodeVisRefs_tokens n st.buf st.ip st.strs refs st'.ip st'.strs hdec
    obtain ⟨hu, hne⟩ := htok j i hj
    have hjlen : j < refs.length := by
      rcases Nat.lt_or_ge j refs.length with h1 | h1
      · exact h1
      · have h2 : refs.length ≤ j := h1
        rw [← List.get?_eq_none] at h2
        rw [h2] at hj
        exact Option.noConfusion hj
    have hjlt : j < n := by rw [← hlen]; exact hjlen
    have hlt := hpre j i hjlt hu hne
    have hbg := bindAll_get hbind j (VisRef.ownedIdx i) hj
    refine ⟨hlt, ?_⟩
    rw [hbg]
    rfl

/-- A visible pass of one entry whose token is `0`, over a one-symbol
owned array and a fresh scope over the builtin root. -/
def stC10 : St :=
  { wSt [0, 0] [] with table := [⟨false, [], [], []⟩, wRoot] }

/-- C10 witness: on the concrete state `stC10` the precondition holds (the
single token is `0`, below the owned count `1`), so the out-of-bounds
branch is unreachable and a successful pass binds the owned symbol. -/
theorem c10_owned_index_in_bounds_witness :
    visLoopFn 8 [wSymFloat] 1 stC10 ≠ .error .oobOwnedIndex ∧
    (∀ (u : Unit) (st' : St) (f : ScopeFrame) (rest : List ScopeFrame),
      visLoopFn 8 [wSymFloat] 1 stC10 = .ok (u, st') →
      stC10.table = f :: rest → rest ≠ [] →
      ∃ refs bound,
        decodeVisRefs stC10.buf stC10.ip stC10.strs 1 =
          some (refs, st'.ip, st'.strs) ∧
        bindAll [wSymFloat] rest refs = some bound ∧
        st'.table =
          { f with entries :=
              f.entries ++ bound.map (fun s => (s.symName, s)) } :: rest ∧
        ∀ j i, refs.get? j = some (VisRef.ownedIdx i) →
          i < [wSymFloat].length ∧ bound.get? j = [wSymFloat].get? i) :=
  c10_owned_index_in_bounds 8 1 [wSymFloat] stC10 (by
    intro i tok hi hu hne
    have hi0 : i = 0 := by omega
    subst hi0
    have h0 : u16At stC10.buf (stC10.ip + 2 * 0) = some 0 := rfl
    have h1 : (some 0 : Option Nat) = some tok := h0.symm.trans hu
    have ht : tok = 0 := (Option.some.inj h1).symm
    rw [ht]
    exact Nat.one_pos)

end SkSLRehydrator
